import Mathlib

/-!
# CGraph: element wiring, readiness, phase processor and the atomic task queue

A shallow embedding of `src/UtilsCtrl/ThreadPool/Queue/UAtomicQueue.h` and
`src/GraphCtrl/GraphElement/GElement.cpp`.

* `std::queue<std::unique_ptr<T>>` is a `List α`, head of the list = front of the
  queue.  Every member function of `UAtomicQueue` runs under the queue's mutex, so
  each one is a single atomic step on the contents.
* A `GElement*` is an address (`Nat`), the objects live in a `Heap`, and a
  `std::set<GElement*>` is a `Finset Nat` that is iterated in ascending order.
* The virtual methods (`init`, `run`, `destroy`, `isHold`, `crashed`) and the
  aspect manager's `reflect` are supplied by a `Hooks` record that acts on a
  user-chosen world state; every call made by `fatProcessor` is written to a trace.
-/

namespace CGraph

/-! ## UAtomicQueue -/

namespace UAtomicQueue

/-- The blocking `waitPop(T& value)`: the condition variable lets the caller through
only once the queue is non-empty, so on an empty queue (and with nobody pushing) the
call does not return, which is `none`.  Otherwise `value` becomes the front and the
front is popped; the result is the new `value` and the new queue. -/
def waitPop {α : Type} (queue : List α) (_value : α) : Option (α × List α) :=
  match queue with
  | [] => none
  | front :: rest => some (front, rest)

/-- The single-value `tryPop(T& value)`: returned flag, new `value`, new queue. -/
def tryPop {α : Type} (queue : List α) (value : α) : Bool × α × List α :=
  match queue with
  | [] => (false, value, [])
  | front :: rest => (true, front, rest)

/-- The loop `while (!queue_.empty() && maxPoolBatchSize--)` of the batched `tryPop`.
The post-decrement tests the old counter against zero; the test is not reached when
the queue is already empty. -/
def tryPopBatchLoop {α : Type} : List α → List α → Int → List α × List α
  | [], values, _ => ([], values)
  | front :: rest, values, maxPoolBatchSize =>
    if maxPoolBatchSize ≠ 0 then
      tryPopBatchLoop rest (values ++ [front]) (maxPoolBatchSize - 1)
    else
      (front :: rest, values)

/-- The batched `tryPop(std::vector<T>& values, int maxPoolBatchSize)`: returned flag,
new `values`, new queue (the loop yields queue first, values second). -/
def tryPopBatch {α : Type} (queue : List α) (values : List α) (maxPoolBatchSize : Int) :
    Bool × List α × List α :=
  if queue.isEmpty || decide (maxPoolBatchSize ≤ 0) then
    (false, values, queue)
  else
    let r := tryPopBatchLoop queue values maxPoolBatchSize
    (true, r.2, r.1)

/-- The pointer-returning `tryPop()`: `none` is the null `unique_ptr`. -/
def tryPopPtr {α : Type} (queue : List α) : Option α × List α :=
  match queue with
  | [] => (none, [])
  | front :: rest => (some front, rest)

/-- The member `push(T&& value)`: the value is appended at the tail. -/
def push {α : Type} (queue : List α) (value : α) : List α :=
  queue ++ [value]

/-- The member `empty()`. -/
def empty {α : Type} (queue : List α) : Bool :=
  queue.isEmpty

/-- One call made on the queue by its user. -/
inductive Op (α : Type) where
  | push (value : α)
  | tryPop
  | tryPopPtr
  | tryPopBatch (maxPoolBatchSize : Int)
  | waitPop
  deriving Repr, DecidableEq

/-- What an observer of a single-consumer session sees: the queue, every value handed
to `push` so far (in call order) and every value handed out by a pop (in the order
the consumer received them; a batch is received in the order of its vector). -/
structure Session (α : Type) where
  queue : List α
  pushed : List α
  popped : List α
  deriving Repr, DecidableEq

/-- The session before any call. -/
def Session.init {α : Type} : Session α := ⟨[], [], []⟩

/-- One call of the session.  `none` = the call never returns (`waitPop` on an empty
queue with no producer). The consumer passes a fresh vector to every batched call and
the scratch variable `dflt` as `value`. -/
def Session.step {α : Type} (dflt : α) (s : Session α) : Op α → Option (Session α)
  | Op.push v => some { s with queue := push s.queue v, pushed := s.pushed ++ [v] }
  | Op.tryPop =>
    match tryPop s.queue dflt with
    | (true, v, q) => some { s with queue := q, popped := s.popped ++ [v] }
    | (false, _, q) => some { s with queue := q }
  | Op.tryPopPtr =>
    match tryPopPtr s.queue with
    | (some v, q) => some { s with queue := q, popped := s.popped ++ [v] }
    | (none, q) => some { s with queue := q }
  | Op.tryPopBatch n =>
    match tryPopBatch s.queue [] n with
    | (_, vs, q) => some { s with queue := q, popped := s.popped ++ vs }
  | Op.waitPop =>
    match waitPop s.queue dflt with
    | none => none
    | some (v, q) => some { s with queue := q, popped := s.popped ++ [v] }

/-- A whole sequence of calls, left to right. -/
def Session.run {α : Type} (dflt : α) : Session α → List (Op α) → Option (Session α)
  | s, [] => some s
  | s, op :: ops =>
    match Session.step dflt s op with
    | none => none
    | some s1 => Session.run dflt s1 ops

end UAtomicQueue

/-! ## Status values and exceptions -/

/-- Modelled from the spec: the class `CStatus` is declared outside the sources; a
status carries a code and a message and is OK iff the code is zero. A
default-constructed status (the `CStatus status;` of `CGRAPH_FUNCTION_BEGIN`) is OK. -/
structure CStatus where
  error_code : Int := 0
  error_info : String := ""
  deriving Repr, DecidableEq

/-- Modelled from the spec: the member `CStatus::isOK`, `OK iff code == 0`. -/
def CStatus.isOK (s : CStatus) : Bool := decide (s.error_code = 0)

/-- Modelled from the spec: the class `CException` is declared outside the sources; the
sources read only its text, `what()`. -/
structure CException where
  what : String
  deriving Repr, DecidableEq

/-- What a call of a user method yields: a returned status or a thrown exception. -/
inductive Outcome where
  | returned (status : CStatus)
  | thrown (ex : CException)
  deriving Repr, DecidableEq

/-- What a call of `isHold` yields: its answer or a thrown exception. -/
inductive HoldOutcome where
  | answered (hold : Bool)
  | thrown (ex : CException)
  deriving Repr, DecidableEq

/-- Modelled from the spec: the macro `CGRAPH_RETURN_ERROR_STATUS` is not among the
sources; it returns a status that is not OK (`Non-zero code means failure`) carrying
the given text. The code -1 stands for its error code. -/
def CGRAPH_RETURN_ERROR_STATUS (info : String) : CStatus := ⟨-1, info⟩

/-- Modelled from the spec: the macro `CGRAPH_FUNCTION_CHECK_STATUS` is not among the
sources; it leaves the function, returning `status`, when `status` is not OK
(`if !s.ok → break` / `return`). The result tells whether the macro returns. -/
def CGRAPH_FUNCTION_CHECK_STATUS (status : CStatus) : Bool := !status.isOK

/-- Modelled from the spec: the macros `CGRAPH_ASSERT_INIT` and
`CGRAPH_ASSERT_INIT_RETURN_NULL` are not among the sources; configuration is `settable
only when the element is not yet initialized`, so with the argument `isInit` the macro
leaves the function (with an error status, respectively a null pointer) when `is_init_`
differs from `isInit`. The result tells whether the macro returns. -/
def CGRAPH_ASSERT_INIT (isInit is_init_ : Bool) : Bool := decide (isInit ≠ is_init_)

/-- Modelled from the spec: the macro `CGRAPH_ASSERT_NOT_NULL` is not among the
sources; `Rejects null pool`: it leaves the function with an error status when the
pointer is null. The result tells whether the macro returns. -/
def CGRAPH_ASSERT_NOT_NULL (ptr : Option Nat) : Bool := ptr.isNone

/-! ## GElement -/

/-- Modelled from the spec: the class `GAspectManager` is declared outside the sources.
`GElement.cpp` looks at its name (`setName`) and at the number of registered aspects
(`getSize`); its `reflect` is a field of `Hooks`. -/
structure GAspectManager where
  name : String := ""
  size : Nat := 0
  deriving Repr, DecidableEq

/-- Modelled from the spec: the header declaring the members of `GElement` is not
among the sources. These are the members that `GElement.cpp` reads or writes, under
their names there, and `is_init_` of the base class. `left_depend_` is `an atomic
integer`, `loop_` an unsigned count, `level_` a signed integer. Pointers are
addresses; `none` is the null pointer. The initial values are those of a freshly
constructed element (empty sets, not done, `loop` 1). -/
@[ext]
structure GElement where
  done_ : Bool := false
  linkable_ : Bool := false
  loop_ : Nat := 1
  level_ : Int := 0
  name_ : String := ""
  session_ : String := ""
  run_before_ : Finset Nat := ∅
  dependence_ : Finset Nat := ∅
  left_depend_ : Int := 0
  param_manager_ : Option Nat := none
  aspect_manager_ : Option GAspectManager := none
  thread_pool_ : Option Nat := none
  is_init_ : Bool := false
  deriving DecidableEq

/-- The objects, by address. -/
abbrev Heap := Nat → GElement

/-- Overwrite the object at address `p`. -/
def Heap.set (h : Heap) (p : Nat) (e : GElement) : Heap :=
  fun q => if q = p then e else h q

/-- A heap of freshly constructed elements: every member has its initial value. -/
def Heap.fresh : Heap := fun _ => {}

/-- A heap of fresh elements in which the element at `p` has been initialized and the
element at address 5 owns an aspect manager with one aspect. -/
def Heap.initialized (p : Nat) : Heap :=
  (Heap.fresh.set 5 { Heap.fresh 5 with aspect_manager_ := some ⟨"old", 1⟩ }).set p
    { Heap.fresh p with is_init_ := true }

/-- In-order traversal of a `std::set<GElement*>`: ascending addresses. -/
def ptrSetToList (s : Finset Nat) : List Nat :=
  Quotient.liftOn s.val (fun l => l.insertionSort (· ≤ ·))
    (fun a b h => List.eq_of_perm_of_sorted
      ((List.perm_insertionSort _ a).trans (h.trans (List.perm_insertionSort _ b).symm))
      (List.sorted_insertionSort _ a) (List.sorted_insertionSort _ b))

namespace GElement

/-- The member `GElement::beforeRun` called on the object at `this`. -/
def beforeRun (h : Heap) (this : Nat) : CStatus × Heap :=
  let h1 := h.set this { h this with done_ := false }
  let h2 := h1.set this { h1 this with left_depend_ := ((h1 this).dependence_.card : Int) }
  ({}, h2)

/-- Body of the loop of `afterRun`: `element->left_depend_--`. -/
def afterRunBody (h : Heap) (element : Nat) : Heap :=
  h.set element { h element with left_depend_ := (h element).left_depend_ - 1 }

/-- The member `GElement::afterRun` called on the object at `this`. -/
def afterRun (h : Heap) (this : Nat) : CStatus × Heap :=
  let h1 := (ptrSetToList (h this).run_before_).foldl afterRunBody h
  ({}, h1.set this { h1 this with done_ := true })

/-- The member `GElement::isRunnable`. -/
def isRunnable (h : Heap) (this : Nat) : Bool :=
  decide (0 ≥ (h this).left_depend_) && !(h this).done_

/-- The member `GElement::isLinkable`. -/
def isLinkable (h : Heap) (this : Nat) : Bool :=
  (h this).linkable_

/-- Body of the loop of `addDependGElements` for one `cur`. -/
def addDependBody (this : Nat) (h : Heap) (cur : Nat) : Heap :=
  if this = cur then
    h
  else
    let h1 := h.set cur { h cur with run_before_ := insert this (h cur).run_before_ }
    h1.set this { h1 this with dependence_ := insert cur (h1 this).dependence_ }

/-- The member `GElement::addDependGElements` called on the object at `this`. -/
def addDependGElements (h : Heap) (this : Nat) (elements : Finset Nat) : CStatus × Heap :=
  let h1 := (ptrSetToList elements).foldl (addDependBody this) h
  ({}, h1.set this { h1 this with left_depend_ := ((h1 this).dependence_.card : Int) })

/-- The member `GElement::setName` called on the object at `this`: the returned pointer
(`none` is null) and the heap. The aspect manager, when there is one, is given the
argument as it came. -/
def setName (h : Heap) (this : Nat) (name : String) : Option Nat × Heap :=
  if CGRAPH_ASSERT_INIT false (h this).is_init_ then
    (none, h)
  else
    let h1 := h.set this { h this with name_ := if name = "" then (h this).session_ else name }
    match (h1 this).aspect_manager_ with
    | some m =>
      (some this, h1.set this { h1 this with aspect_manager_ := some { m with name := name } })
    | none => (some this, h1)

/-- The member `GElement::setLoop` called on the object at `this`. -/
def setLoop (h : Heap) (this : Nat) (loop : Nat) : Option Nat × Heap :=
  if CGRAPH_ASSERT_INIT false (h this).is_init_ then
    (none, h)
  else
    (some this, h.set this { h this with loop_ := loop })

/-- The member `GElement::setLevel` called on the object at `this`. -/
def setLevel (h : Heap) (this : Nat) (level : Int) : Option Nat × Heap :=
  if CGRAPH_ASSERT_INIT false (h this).is_init_ then
    (none, h)
  else
    (some this, h.set this { h this with level_ := level })

/-- The member `GElement::setElementInfo` called on the object at `this`. The chain
`setName(name)->setLoop(loop)->setLevel(level)` calls each setter on the pointer the
one before returned; `none` as result = a null pointer was dereferenced in the chain. -/
def setElementInfo (h : Heap) (this : Nat) (dependElements : Finset Nat) (name : String)
    (loop : Nat) (level : Int) (paramManager threadPool : Option Nat) :
    Option (CStatus × Heap) :=
  if CGRAPH_ASSERT_NOT_NULL threadPool then
    some (CGRAPH_RETURN_ERROR_STATUS "input is nullptr", h)
  else if CGRAPH_ASSERT_INIT false (h this).is_init_ then
    some (CGRAPH_RETURN_ERROR_STATUS "init status is not suitable", h)
  else
    match setName h this name with
    | (none, _) => none
    | (some p1, h1) =>
      match setLoop h1 p1 loop with
      | (none, _) => none
      | (some p2, h2) =>
        let h3 := (setLevel h2 p2 level).2
        let h4 := h3.set this { h3 this with param_manager_ := paramManager }
        let h5 := h4.set this { h4 this with thread_pool_ := threadPool }
        some (addDependGElements h5 this dependElements)

/-- A sequence of wiring calls `(this, elements)`, left to right. -/
def wire (h : Heap) (calls : List (Nat × Finset Nat)) : Heap :=
  calls.foldl (fun hp c => (addDependGElements hp c.1 c.2).2) h

/-- Calling `beforeRun` on each address of a list, left to right. -/
def beforeRunAll (h : Heap) (elems : List Nat) : Heap :=
  elems.foldl (fun hp x => (beforeRun hp x).2) h

/-- Calling `afterRun` on each address of a list, left to right. -/
def afterRunAll (h : Heap) (finished : List Nat) : Heap :=
  finished.foldl (fun hp x => (afterRun hp x).2) h

/-- The two sets mirror each other: `a` is in the dependence of `b` iff `b` is in the
run-before set of `a`. -/
def Symmetric (h : Heap) : Prop :=
  ∀ a b, a ∈ (h b).dependence_ ↔ b ∈ (h a).run_before_

/-- The state of the readiness protocol relative to the wired heap `hw`: the sets are
those of `hw`, and on every element of `elems` the counter equals the number of its
dependences that are not done. -/
structure RunInv (hw : Heap) (elems : List Nat) (h : Heap) : Prop where
  dep : ∀ x, (h x).dependence_ = (hw x).dependence_
  rb : ∀ x, (h x).run_before_ = (hw x).run_before_
  left : ∀ e ∈ elems, (h e).left_depend_ =
    ((((hw e).dependence_).filter (fun d => (h d).done_ = false)).card : Int)

end GElement

/-- The diamond of the spec's first scenario: A = 0; B = 1 and C = 2 depend on A;
D = 3 depends on B and C. -/
def diamondCalls : List (Nat × Finset Nat) := [(1, {0}), (2, {0}), (3, {1, 2})]

/-- The diamond after wiring, `beforeRun` on A, B, C, D and `afterRun` on `finished`. -/
def diamond (finished : List Nat) : Heap :=
  GElement.afterRunAll (GElement.beforeRunAll (GElement.wire Heap.fresh diamondCalls) [0, 1, 2, 3])
    finished

/-! ## The phase processor -/

/-- The phase kinds `fatProcessor` dispatches on; `UNKNOWN` is any other value of the
enumeration, which reaches the `default:` branch. -/
inductive CFunctionType where
  | INIT
  | RUN
  | DESTROY
  | UNKNOWN
  deriving Repr, DecidableEq

/-- The hook kinds. -/
inductive GAspectType where
  | BEGIN_INIT
  | FINISH_INIT
  | BEGIN_RUN
  | FINISH_RUN
  | BEGIN_DESTROY
  | FINISH_DESTROY
  deriving Repr, DecidableEq

/-- One call made by `fatProcessor`, with what it was given and what it yielded;
`isHold` is a call of `isHold` that answered, `holdThrew` one that threw. -/
inductive Event where
  | aspect (type : GAspectType) (curStatus : CStatus) (result : CStatus)
  | init (result : Outcome)
  | run (result : Outcome)
  | destroy (result : Outcome)
  | isHold (result : Bool)
  | holdThrew (ex : CException)
  | crashed (ex : CException) (result : Outcome)
  deriving Repr, DecidableEq

/-- The overridable methods of an element and `reflect` of its aspect manager, acting
on a world state `W` of the user's choosing. The user methods `init`, `run`, `destroy`,
`isHold` and `crashed` may throw. -/
structure Hooks (W : Type) where
  init : W → Outcome × W
  run : W → Outcome × W
  destroy : W → Outcome × W
  isHold : W → HoldOutcome × W
  crashed : CException → W → Outcome × W
  reflect : GAspectType → CStatus → W → CStatus × W

/-- The world state together with the trace of the calls made so far. -/
structure Sys (W : Type) where
  world : W
  trace : List Event
  deriving DecidableEq

namespace GElement

/-- The default `GElement::isHold`. -/
def isHold {W : Type} (w : W) : HoldOutcome × W := (HoldOutcome.answered false, w)

/-- The default `GElement::crashed`: throws an exception with the same text. -/
def crashed {W : Type} (ex : CException) (w : W) : Outcome × W :=
  (Outcome.thrown ⟨ex.what⟩, w)

/-- The member `GElement::doAspect`. The second parameter of the two BEGIN calls is
left to its default, a default-constructed status. -/
def doAspect {W : Type} (hk : Hooks W) (e : GElement) (aspectType : GAspectType)
    (curStatus : CStatus) (s : Sys W) : CStatus × Sys W :=
  match e.aspect_manager_ with
  | none => ({}, s)
  | some m =>
    if 0 ≠ m.size then
      let r := hk.reflect aspectType curStatus s.world
      (r.1, ⟨r.2, s.trace ++ [Event.aspect aspectType curStatus r.1]⟩)
    else
      ({}, s)

/-- The `do { status = run(); } while (status.isOK() && this->isHold());` of the RUN
case. An exception thrown by `run` or by `isHold` leaves the loop for the handler.
`fuel` bounds the number of passes; `none` = the bound was hit. -/
def runHold {W : Type} (hk : Hooks W) : Nat → Sys W → Option (Outcome × Sys W)
  | 0, _ => none
  | fuel + 1, s =>
    match hk.run s.world with
    | (Outcome.thrown ex, w) => some (Outcome.thrown ex, ⟨w, s.trace ++ [Event.run (Outcome.thrown ex)]⟩)
    | (Outcome.returned status, w) =>
      let s1 : Sys W := ⟨w, s.trace ++ [Event.run (Outcome.returned status)]⟩
      if status.isOK then
        match hk.isHold s1.world with
        | (HoldOutcome.thrown ex, w2) =>
          some (Outcome.thrown ex, ⟨w2, s1.trace ++ [Event.holdThrew ex]⟩)
        | (HoldOutcome.answered hold, w2) =>
          let s2 : Sys W := ⟨w2, s1.trace ++ [Event.isHold hold]⟩
          if hold then runHold hk fuel s2 else some (Outcome.returned status, s2)
      else
        some (Outcome.returned status, s1)

/-- The `for (CSize i = 0; i < this->loop_; i++)` of the RUN case, by the number of
iterations still to do; `status` is the local variable of `fatProcessor`. -/
def runLoop {W : Type} (hk : Hooks W) (e : GElement) (fuel : Nat) :
    Nat → CStatus → Sys W → Option (Outcome × Sys W)
  | 0, status, s => some (Outcome.returned status, s)
  | todo + 1, _, s =>
    let b := doAspect hk e GAspectType.BEGIN_RUN {} s
    if CGRAPH_FUNCTION_CHECK_STATUS b.1 then
      some (Outcome.returned b.1, b.2)
    else
      match runHold hk fuel b.2 with
      | none => none
      | some (Outcome.thrown ex, s2) => some (Outcome.thrown ex, s2)
      | some (Outcome.returned status, s2) =>
        let f := doAspect hk e GAspectType.FINISH_RUN status s2
        runLoop hk e fuel todo status f.2

/-- The INIT and DESTROY cases, which differ in the method and the hook kinds only. -/
def oncePhase {W : Type} (hk : Hooks W) (e : GElement) (beginType finishType : GAspectType)
    (method : W → Outcome × W) (mk : Outcome → Event) (s : Sys W) : Outcome × Sys W :=
  let b := doAspect hk e beginType {} s
  if CGRAPH_FUNCTION_CHECK_STATUS b.1 then
    (Outcome.returned b.1, b.2)
  else
    let r := method b.2.world
    let s1 : Sys W := ⟨r.2, b.2.trace ++ [mk r.1]⟩
    match r.1 with
    | Outcome.thrown ex => (Outcome.thrown ex, s1)
    | Outcome.returned status =>
      let f := doAspect hk e finishType status s1
      (Outcome.returned status, f.2)

/-- The `try` block of `fatProcessor`: the `switch` over the phase kind. -/
def fatProcessorTry {W : Type} (hk : Hooks W) (e : GElement) (type : CFunctionType)
    (fuel : Nat) (s : Sys W) : Option (Outcome × Sys W) :=
  match type with
  | CFunctionType.RUN => runLoop hk e fuel e.loop_ {} s
  | CFunctionType.INIT =>
    some (oncePhase hk e GAspectType.BEGIN_INIT GAspectType.FINISH_INIT hk.init Event.init s)
  | CFunctionType.DESTROY =>
    some (oncePhase hk e GAspectType.BEGIN_DESTROY GAspectType.FINISH_DESTROY hk.destroy
      Event.destroy s)
  | CFunctionType.UNKNOWN =>
    some (Outcome.returned (CGRAPH_RETURN_ERROR_STATUS "get function type error"), s)

/-- The member `GElement::fatProcessor`: the `try` block, and `status = crashed(ex)`
in the handler. `Outcome.thrown` at this level is an exception that leaves
`fatProcessor`; `none` = the hold loop did not finish within `fuel` passes. -/
def fatProcessor {W : Type} (hk : Hooks W) (e : GElement) (type : CFunctionType)
    (fuel : Nat) (s : Sys W) : Option (Outcome × Sys W) :=
  match fatProcessorTry hk e type fuel s with
  | none => none
  | some (Outcome.returned status, s1) => some (Outcome.returned status, s1)
  | some (Outcome.thrown ex, s1) =>
    let r := hk.crashed ex s1.world
    some (r.1, ⟨r.2, s1.trace ++ [Event.crashed ex r.1]⟩)

end GElement

/-! ## Reading a trace -/

/-- Is the event a call of `run`? -/
def Event.isRunCall : Event → Bool
  | Event.run _ => true
  | _ => false

/-- Is the event a call of `isHold` that answered true? -/
def Event.isHoldTrue : Event → Bool
  | Event.isHold true => true
  | _ => false

/-- Is the event a call of `run` that did not return an OK status? -/
def Event.isRunNotOK : Event → Bool
  | Event.run (Outcome.returned status) => !status.isOK
  | Event.run (Outcome.thrown _) => true
  | _ => false

/-- Is the event a call of `run` that threw? -/
def Event.isRunThrow : Event → Bool
  | Event.run (Outcome.thrown _) => true
  | _ => false

/-- Is the event a BEGIN_RUN hook group that answered with a status that is not OK? -/
def Event.isBeginRunVeto : Event → Bool
  | Event.aspect GAspectType.BEGIN_RUN _ result => !result.isOK
  | _ => false

/-- Is the event a call of the BEGIN_RUN hook group? -/
def Event.isBeginRun : Event → Bool
  | Event.aspect GAspectType.BEGIN_RUN _ _ => true
  | _ => false

/-- Number of invocations of `run` in a trace. -/
def runCalls (t : List Event) : Nat := t.countP Event.isRunCall

/-- Number of times `isHold` returned true in a trace. -/
def holdRepeats (t : List Event) : Nat := t.countP Event.isHoldTrue

/-- Is the event a call of `isHold` that threw? -/
def Event.isHoldThrow : Event → Bool
  | Event.holdThrew _ => true
  | _ => false

/-- Number of calls of `isHold` that threw in a trace. -/
def holdThrows (t : List Event) : Nat := t.countP Event.isHoldThrow

/-- Number of calls in a trace that make a RUN phase unsuccessful: a `run` that did not
return OK, a BEGIN_RUN hook group that vetoed, or an `isHold` that threw. -/
def unsuccessful (t : List Event) : Nat :=
  t.countP (fun ev => ev.isRunNotOK || ev.isBeginRunVeto || ev.isHoldThrow)

/-! ## The shape of a RUN trace -/

/-- Does `doAspect` reach the aspect manager: is there one, with at least one aspect? -/
def hasAspects (e : GElement) : Bool :=
  match e.aspect_manager_ with
  | some m => decide (0 ≠ m.size)
  | none => false

/-- What one `doAspect` call writes to the trace. -/
def aspectEvents (reg : Bool) (t : GAspectType) (cur res : CStatus) : List Event :=
  if reg then [Event.aspect t cur res] else []

/-- The calls of one pass through the hold loop and the outcome it ends with: `run`
throws; `run` returns OK and `isHold` throws; `run` returns a status that is not OK;
`run` returns OK and `isHold` answers false; or `run` returns OK, `isHold` answers
true and the loop goes round again. -/
inductive HoldTrace : List Event → Outcome → Prop
  | threw (ex : CException) :
    HoldTrace [Event.run (Outcome.thrown ex)] (Outcome.thrown ex)
  | holdThrew (st : CStatus) (h : st.isOK = true) (ex : CException) :
    HoldTrace [Event.run (Outcome.returned st), Event.holdThrew ex] (Outcome.thrown ex)
  | failed (st : CStatus) (h : st.isOK = false) :
    HoldTrace [Event.run (Outcome.returned st)] (Outcome.returned st)
  | released (st : CStatus) (h : st.isOK = true) :
    HoldTrace [Event.run (Outcome.returned st), Event.isHold false] (Outcome.returned st)
  | held (st : CStatus) (h : st.isOK = true) (d : List Event) (r : Outcome)
      (hd : HoldTrace d r) :
    HoldTrace (Event.run (Outcome.returned st) :: Event.isHold true :: d) r

/-- The calls of the `for` loop of the RUN case with `todo` iterations to go, and the
outcome of the `try` block: no iteration left; the BEGIN_RUN group vetoes; the body
throws; or the body returns, the FINISH_RUN group is called and the loop goes on. -/
inductive LoopTrace (reg : Bool) : Nat → CStatus → List Event → Outcome → Prop
  | finished (status : CStatus) : LoopTrace reg 0 status [] (Outcome.returned status)
  | vetoed (todo : Nat) (status v : CStatus) (hreg : reg = true) (hv : v.isOK = false) :
    LoopTrace reg (todo + 1) status [Event.aspect GAspectType.BEGIN_RUN {} v]
      (Outcome.returned v)
  | threw (todo : Nat) (status b : CStatus) (d : List Event) (ex : CException)
      (hb : b.isOK = true) (hd : HoldTrace d (Outcome.thrown ex)) :
    LoopTrace reg (todo + 1) status (aspectEvents reg GAspectType.BEGIN_RUN {} b ++ d)
      (Outcome.thrown ex)
  | next (todo : Nat) (status b st f : CStatus) (d rest : List Event) (r : Outcome)
      (hb : b.isOK = true) (hd : HoldTrace d (Outcome.returned st))
      (hrest : LoopTrace reg todo st rest r) :
    LoopTrace reg (todo + 1) status
      (aspectEvents reg GAspectType.BEGIN_RUN {} b ++
        (d ++ (aspectEvents reg GAspectType.FINISH_RUN st f ++ rest))) r

/-- The outcome of the latest call of `run` after an event, given the one before. -/
def Event.updLast (last : Option Outcome) : Event → Option Outcome
  | Event.run o => some o
  | _ => last

/-- The outcome of the latest call of `run` at the end of a trace. -/
def lastRunFrom (last : Option Outcome) (t : List Event) : Option Outcome :=
  t.foldl Event.updLast last

/-- For a call of the FINISH_RUN hook group: was it given the status that the latest
call of `run` returned? Any other event passes. -/
def Event.finishOk (last : Option Outcome) : Event → Bool
  | Event.aspect GAspectType.FINISH_RUN cur _ => decide (last = some (Outcome.returned cur))
  | _ => true

/-- Every FINISH_RUN hook group in the trace was given the status returned by the
latest call of `run` before it. -/
def finishSeesBody : Option Outcome → List Event → Bool
  | _, [] => true
  | last, ev :: rest => ev.finishOk last && finishSeesBody (ev.updLast last) rest

/-- Is the event a call of the FINISH_RUN hook group? -/
def Event.isFinishRun : Event → Bool
  | Event.aspect GAspectType.FINISH_RUN _ _ => true
  | _ => false

/-- Is the event a BEGIN_RUN hook group that answered OK? -/
def Event.isBeginRunPass : Event → Bool
  | Event.aspect GAspectType.BEGIN_RUN _ result => result.isOK
  | _ => false

/-- Is the event a call of `crashed`? -/
def Event.isCrashed : Event → Bool
  | Event.crashed _ _ => true
  | _ => false

/-- Number of calls of the FINISH_RUN hook group in a trace. -/
def finishRunCalls (t : List Event) : Nat := t.countP Event.isFinishRun

/-- Number of BEGIN_RUN hook groups that passed in a trace. -/
def beginRunPasses (t : List Event) : Nat := t.countP Event.isBeginRunPass

/-- Number of calls of `run` that threw in a trace. -/
def runThrows (t : List Event) : Nat := t.countP Event.isRunThrow

/-! ## Example elements -/

/-- Hooks of an element with no aspect whose `run` returns code 7 on its first call and
OK afterwards; the world counts the calls of `run`. The other methods are the defaults. -/
def failFirstRunHooks : Hooks Nat where
  init := fun w => (Outcome.returned {}, w)
  run := fun w => (Outcome.returned (if w = 0 then ⟨7, "run failed"⟩ else {}), w + 1)
  destroy := fun w => (Outcome.returned {}, w)
  isHold := GElement.isHold
  crashed := GElement.crashed
  reflect := fun _ _ w => ({}, w)

/-- Hooks of a plain element: `run` returns OK, everything else is the default. -/
def plainHooks : Hooks Unit where
  init := fun w => (Outcome.returned {}, w)
  run := fun w => (Outcome.returned {}, w)
  destroy := fun w => (Outcome.returned {}, w)
  isHold := GElement.isHold
  crashed := GElement.crashed
  reflect := fun _ _ w => ({}, w)

/-- Hooks of the aspect-veto scenario: the BEGIN_RUN hook group returns code 9 on the
first invocation of `reflect` and OK afterwards; the world counts the invocations. -/
def vetoFirstHooks : Hooks Nat where
  init := fun w => (Outcome.returned {}, w)
  run := fun w => (Outcome.returned {}, w)
  destroy := fun w => (Outcome.returned {}, w)
  isHold := GElement.isHold
  crashed := GElement.crashed
  reflect := fun t _ w =>
    (if t = GAspectType.BEGIN_RUN ∧ w = 0 then ⟨9, "veto"⟩ else {}, w + 1)

/-- Hooks of an element all of whose user methods throw; `crashed` is overridden to
return code 11 and every hook group returns OK. -/
def throwingBodyHooks : Hooks Unit where
  init := fun w => (Outcome.thrown ⟨"boom"⟩, w)
  run := fun w => (Outcome.thrown ⟨"boom"⟩, w)
  destroy := fun w => (Outcome.thrown ⟨"boom"⟩, w)
  isHold := GElement.isHold
  crashed := fun ex w => (Outcome.returned ⟨11, ex.what⟩, w)
  reflect := fun _ _ w => ({}, w)

/-- Hooks as `throwingBodyHooks`, with the default `crashed`. -/
def throwingDefaultCrashHooks : Hooks Unit where
  init := fun w => (Outcome.thrown ⟨"boom"⟩, w)
  run := fun w => (Outcome.thrown ⟨"boom"⟩, w)
  destroy := fun w => (Outcome.thrown ⟨"boom"⟩, w)
  isHold := GElement.isHold
  crashed := GElement.crashed
  reflect := fun _ _ w => ({}, w)

/-- An element with one registered aspect and the given loop count. -/
def elementWithAspect (loop : Nat) : GElement :=
  { loop_ := loop, aspect_manager_ := some ⟨"", 1⟩ }

/-! ## Repeated single pops -/

namespace UAtomicQueue

/-- The description of the batched drain by single pops: call the single-value
`tryPop(value)` up to `n` times, stop at the first call that returns false, and append
each popped value to `values`. Yields the queue and `values` afterwards. -/
def tryPopUpTo {α : Type} (dflt : α) : Nat → List α → List α → List α × List α
  | 0, queue, values => (queue, values)
  | n + 1, queue, values =>
    match tryPop queue dflt with
    | (true, value, rest) => tryPopUpTo dflt n rest (values ++ [value])
    | (false, _, rest) => (rest, values)

/-- The calls of the batched drain scenario on the values `vs`: push each value, then
three batched `tryPop` with bound 32, then one `waitPop`. -/
def batchedDrainOps {α : Type} (vs : List α) : List (Op α) :=
  vs.map Op.push ++ [Op.tryPopBatch 32, Op.tryPopBatch 32, Op.tryPopBatch 32, Op.waitPop]

end UAtomicQueue

/-! ## Theorems: UAtomicQueue -/

namespace UAtomicQueue

theorem tryPopBatchLoop_eq {α : Type} (q values : List α) (n : Int) (hn : 0 ≤ n) :
    tryPopBatchLoop q values n = (q.drop n.toNat, values ++ q.take n.toNat) := by
  induction q generalizing values n with
  | nil => simp [tryPopBatchLoop]
  | cons front rest ih =>
    by_cases h0 : n = 0
    · subst h0
      simp [tryPopBatchLoop]
    · have hpos : 0 < n := lt_of_le_of_ne hn (Ne.symm h0)
      have hsucc : n.toNat = (n - 1).toNat + 1 := by omega
      rw [tryPopBatchLoop, if_pos h0, ih _ _ (by omega), hsucc]
      simp

theorem tryPopBatch_pos {α : Type} (q values : List α) (n : Int) (hn : 0 < n) (hq : q ≠ []) :
    tryPopBatch q values n = (true, values ++ q.take n.toNat, q.drop n.toNat) := by
  have h1 : q.isEmpty = false := by
    cases q with
    | nil => exact absurd rfl hq
    | cons a l => rfl
  have h2 : decide (n ≤ 0) = false := by simp; omega
  simp only [tryPopBatch, h1, h2, Bool.or_self, Bool.false_eq_true, if_false]
  rw [tryPopBatchLoop_eq q values n (by omega)]

theorem tryPopBatch_neg {α : Type} (q values : List α) (n : Int) (h : n ≤ 0 ∨ q = []) :
    tryPopBatch q values n = (false, values, q) := by
  have : (q.isEmpty || decide (n ≤ 0)) = true := by
    rcases h with h | h
    · simp [h]
    · simp [h]
  simp [tryPopBatch, this]

theorem Session.step_inv {α : Type} (dflt : α) (s s1 : Session α) (op : Op α)
    (h : Session.step dflt s op = some s1) (hs : s.popped ++ s.queue = s.pushed) :
    s1.popped ++ s1.queue = s1.pushed := by
  cases op with
  | push v =>
    simp only [Session.step, Option.some.injEq] at h
    subst h
    simp [push, ← hs]
  | tryPop =>
    cases hq : s.queue with
    | nil =>
      simp only [Session.step, hq, tryPop, Option.some.injEq] at h
      subst h
      simpa [hq] using hs
    | cons a l =>
      simp only [Session.step, hq, tryPop, Option.some.injEq] at h
      subst h
      simpa [hq] using hs
  | tryPopPtr =>
    cases hq : s.queue with
    | nil =>
      simp only [Session.step, hq, tryPopPtr, Option.some.injEq] at h
      subst h
      simpa [hq] using hs
    | cons a l =>
      simp only [Session.step, hq, tryPopPtr, Option.some.injEq] at h
      subst h
      simpa [hq] using hs
  | tryPopBatch n =>
    simp only [Session.step, Option.some.injEq] at h
    subst h
    by_cases hc : 0 < n ∧ s.queue ≠ []
    · rw [tryPopBatch_pos _ _ _ hc.1 hc.2]
      simp [hs]
    · rw [tryPopBatch_neg _ _ _ (by by_cases hq : s.queue = []; exact Or.inr hq; left; push_neg at hc; by_contra h9; exact hq (hc (by omega)))]
      simp [hs]
  | waitPop =>
    cases hq : s.queue with
    | nil => simp [Session.step, hq, waitPop] at h
    | cons a l =>
      simp only [Session.step, hq, waitPop, Option.some.injEq] at h
      subst h
      simpa [hq] using hs

theorem Session.run_inv {α : Type} (dflt : α) (ops : List (Op α)) (s s1 : Session α)
    (h : Session.run dflt s ops = some s1) (hs : s.popped ++ s.queue = s.pushed) :
    s1.popped ++ s1.queue = s1.pushed := by
  induction ops generalizing s with
  | nil =>
    simp only [Session.run, Option.some.injEq] at h
    subst h
    exact hs
  | cons op ops ih =>
    simp only [Session.run] at h
    cases hstep : Session.step dflt s op with
    | none => simp [hstep] at h
    | some s2 =>
      rw [hstep] at h
      exact ih s2 h (Session.step_inv dflt s s2 op hstep hs)

theorem Session.step_eq_none {α : Type} (dflt : α) (s : Session α) (op : Op α) :
    Session.step dflt s op = none ↔ (op = Op.waitPop ∧ s.queue = []) := by
  cases op with
  | push v => simp [Session.step]
  | tryPop => cases hq : s.queue <;> simp [Session.step, hq, tryPop]
  | tryPopPtr => cases hq : s.queue <;> simp [Session.step, hq, tryPopPtr]
  | tryPopBatch n => simp [Session.step]
  | waitPop => cases hq : s.queue <;> simp [Session.step, hq, waitPop]

/-- C2: in a single-consumer session that starts on an empty queue, after any
sequence of calls that return (push, single tryPop, batched tryPop, and waitPop on a
non-empty queue) the popped values followed by the queue contents are the pushed
values in push order; so the popped values are an initial segment of the pushed
ones, and when the queue is empty the two multisets are equal. The only call that
does not return is waitPop on an empty queue. -/
theorem session_fifo_exactly_once {α : Type} (dflt : α) (ops : List (Op α)) (s : Session α)
    (h : Session.run dflt Session.init ops = some s) :
    s.popped ++ s.queue = s.pushed ∧ s.popped <+: s.pushed ∧
      (s.queue = [] → (s.popped : Multiset α) = (s.pushed : Multiset α)) ∧
      (∀ (t : Session α) (op : Op α),
        Session.step dflt t op = none ↔ (op = Op.waitPop ∧ t.queue = [])) := by
  have hinv := Session.run_inv dflt ops Session.init s h rfl
  refine ⟨hinv, ⟨s.queue, hinv⟩, ?_, Session.step_eq_none dflt⟩
  intro hq
  rw [hq, List.append_nil] at hinv
  rw [hinv]

/-- Witness of C2: three pushes, a single tryPop, a push, a batch of two, a waitPop
and a pointer-returning tryPop on the empty queue. -/
theorem session_fifo_exactly_once_witness :
    Session.run (0 : Nat) Session.init
        [Op.push 5, Op.push 6, Op.push 7, Op.tryPop, Op.push 8, Op.tryPopBatch 2, Op.waitPop,
          Op.tryPopPtr] = some ⟨[], [5, 6, 7, 8], [5, 6, 7, 8]⟩ ∧
      ([5, 6, 7, 8] ++ [] = [5, 6, 7, 8] ∧ [5, 6, 7, 8] <+: [5, 6, 7, 8] ∧
        (([] : List Nat) = [] →
          (([5, 6, 7, 8] : List Nat) : Multiset Nat) = (([5, 6, 7, 8] : List Nat) : Multiset Nat))) :=
  ⟨by decide,
    ((session_fifo_exactly_once (0 : Nat)
      [Op.push 5, Op.push 6, Op.push 7, Op.tryPop, Op.push 8, Op.tryPopBatch 2, Op.waitPop,
        Op.tryPopPtr] ⟨[], [5, 6, 7, 8], [5, 6, 7, 8]⟩ (by decide)).1),
    ((session_fifo_exactly_once (0 : Nat)
      [Op.push 5, Op.push 6, Op.push 7, Op.tryPop, Op.push 8, Op.tryPopBatch 2, Op.waitPop,
        Op.tryPopPtr] ⟨[], [5, 6, 7, 8], [5, 6, 7, 8]⟩ (by decide)).2.1),
    ((session_fifo_exactly_once (0 : Nat)
      [Op.push 5, Op.push 6, Op.push 7, Op.tryPop, Op.push 8, Op.tryPopBatch 2, Op.waitPop,
        Op.tryPopPtr] ⟨[], [5, 6, 7, 8], [5, 6, 7, 8]⟩ (by decide)).2.2.1)⟩

/-- C3: the batched tryPop on a non-empty queue with a positive bound appends the
first min(n, |q|) values of the queue to the vector in queue order, keeps the rest and
returns true; with n <= 0 or an empty queue it returns false and changes nothing; so it
returns true iff it drained at least one value and it drains at most n values. -/
theorem tryPopBatch_spec {α : Type} (q b : List α) (n : Int) :
    (0 < n → q ≠ [] →
      tryPopBatch q b n =
        (true, b ++ q.take (min n.toNat q.length), q.drop (min n.toNat q.length))) ∧
    (n ≤ 0 ∨ q = [] → tryPopBatch q b n = (false, b, q)) ∧
    (∃ drained : List α, (tryPopBatch q b n).2.1 = b ++ drained ∧
      drained ++ (tryPopBatch q b n).2.2 = q ∧
      ((tryPopBatch q b n).1 = true ↔ drained ≠ []) ∧
      (drained.length : Int) ≤ max n 0) := by
  refine ⟨?_, ?_, ?_⟩
  · intro hn hq
    rw [tryPopBatch_pos q b n hn hq]
    rcases Nat.le_total n.toNat q.length with hle | hle
    · rw [Nat.min_eq_left hle]
    · rw [Nat.min_eq_right hle, List.take_of_length_le hle, List.drop_of_length_le hle,
        List.take_length, List.drop_length]
  · exact tryPopBatch_neg q b n
  · by_cases hc : 0 < n ∧ q ≠ []
    · refine ⟨q.take n.toNat, ?_, ?_, ?_, ?_⟩
      · rw [tryPopBatch_pos q b n hc.1 hc.2]
      · rw [tryPopBatch_pos q b n hc.1 hc.2]
        exact List.take_append_drop _ _
      · rw [tryPopBatch_pos q b n hc.1 hc.2]
        have h1 : 0 < n.toNat := by omega
        cases q with
        | nil => exact absurd rfl hc.2
        | cons a l =>
          obtain ⟨k, hk⟩ : ∃ k, n.toNat = k + 1 := ⟨n.toNat - 1, by omega⟩
          rw [hk]
          simp
      · have h2 : (q.take n.toNat).length ≤ n.toNat := by
          rw [List.length_take]
          exact Nat.min_le_left _ _
        omega
    · have hneg : n ≤ 0 ∨ q = [] := by
        by_cases hq : q = []
        · exact Or.inr hq
        · left
          by_contra h9
          exact hc ⟨by omega, hq⟩
      refine ⟨[], ?_, ?_, ?_, ?_⟩
      · rw [tryPopBatch_neg q b n hneg]
        simp
      · rw [tryPopBatch_neg q b n hneg]
        simp
      · rw [tryPopBatch_neg q b n hneg]
        simp
      · simp

theorem tryPopBatch_spec_witness :
    ((0 : Int) < 2 ∧ ([10, 20, 30] : List Nat) ≠ []) ∧
    tryPopBatch ([10, 20, 30] : List Nat) [1] 2 =
      (true, [1] ++ [10, 20, 30].take (min (2 : Int).toNat [10, 20, 30].length),
        [10, 20, 30].drop (min (2 : Int).toNat [10, 20, 30].length)) ∧
    tryPopBatch ([10, 20, 30] : List Nat) [1] 2 = (true, [1, 10, 20], [30]) ∧
    tryPopBatch ([10, 20, 30] : List Nat) [1] 5 = (true, [1, 10, 20, 30], []) ∧
    ((0 : Int) ≤ 0 ∨ ([10, 20, 30] : List Nat) = []) ∧
    tryPopBatch ([10, 20, 30] : List Nat) [1] 0 = (false, [1], [10, 20, 30]) :=
  ⟨by decide, (tryPopBatch_spec [10, 20, 30] [1] 2).1 (by decide) (by decide), by decide,
    by decide, by decide, (tryPopBatch_spec ([10, 20, 30] : List Nat) [1] 0).2.1 (by decide)⟩

/-- C4: the single-value tryPop on a non-empty queue returns true, sets value to the
head and leaves the queue without its head; on an empty queue it returns false and
leaves queue and value as they were. The pointer-returning tryPop returns the head,
respectively the null pointer, with the same queue afterwards. -/
theorem tryPop_head_or_empty {α : Type} (front value : α) (rest : List α) :
    tryPop (front :: rest) value = (true, front, rest) ∧
    tryPop ([] : List α) value = (false, value, []) ∧
    tryPopPtr (front :: rest) = (some front, rest) ∧
    tryPopPtr ([] : List α) = (none, []) :=
  ⟨rfl, rfl, rfl, rfl⟩

end UAtomicQueue

/-! ## Theorems: wiring -/

theorem mem_ptrSetToList (s : Finset Nat) (a : Nat) : a ∈ ptrSetToList s ↔ a ∈ s := by
  rcases s with ⟨⟨l⟩, hl⟩
  show a ∈ l.insertionSort (· ≤ ·) ↔ a ∈ l
  exact (List.perm_insertionSort _ l).mem_iff

theorem nodup_ptrSetToList (s : Finset Nat) : (ptrSetToList s).Nodup := by
  rcases s with ⟨⟨l⟩, hl⟩
  show (l.insertionSort (· ≤ ·)).Nodup
  exact (List.perm_insertionSort _ l).nodup_iff.mpr hl

theorem foldl_preserves {σ β : Type} (P : σ → Prop) (f : σ → β → σ) (l : List β) (s : σ)
    (hs : P s) (hstep : ∀ t b, b ∈ l → P t → P (f t b)) : P (l.foldl f s) := by
  induction l generalizing s with
  | nil => exact hs
  | cons b l ih =>
    rw [List.foldl_cons]
    exact ih (f s b) (hstep s b (List.mem_cons_self _ _) hs)
      (fun t c hc ht => hstep t c (List.mem_cons_of_mem _ hc) ht)

namespace GElement

theorem addDependBody_apply (t : Nat) (h : Heap) (cur x : Nat) :
    addDependBody t h cur x =
      { h x with
        dependence_ :=
          if x = t ∧ cur ≠ t then insert cur (h x).dependence_ else (h x).dependence_
        run_before_ :=
          if x = cur ∧ cur ≠ t then insert t (h x).run_before_ else (h x).run_before_ } := by
  unfold addDependBody
  by_cases hc : t = cur
  · subst hc
    simp
  · have hc2 : cur ≠ t := fun e => hc e.symm
    by_cases hx : x = t
    · subst hx
      simp [Heap.set, hc, hc2]
    · by_cases hx2 : x = cur
      · subst hx2
        simp [Heap.set, hx, hc, hc2]
      · simp [Heap.set, hx, hx2, hc, hc2]

theorem addDependLoop_apply (t : Nat) (l : List Nat) (h : Heap) (x : Nat) :
    (l.foldl (addDependBody t) h) x =
      { h x with
        dependence_ :=
          if x = t then (h x).dependence_ ∪ (l.toFinset.erase t) else (h x).dependence_
        run_before_ :=
          if x ∈ l ∧ x ≠ t then insert t (h x).run_before_ else (h x).run_before_ } := by
  induction l generalizing h with
  | nil => simp
  | cons cur l ih =>
    rw [List.foldl_cons, ih, addDependBody_apply]
    apply GElement.ext <;> simp only []
    · by_cases hx : x = t
      · subst hx
        by_cases hc : x = cur
        · subst hc
          simp
        · simp [hc]
      · by_cases hc : x = cur
        · subst hc
          by_cases hl : x ∈ l <;> simp [hx, hl]
        · simp [hx, hc]
    · by_cases hx : x = t
      · subst hx
        by_cases hc : cur = x
        · subst hc
          simp
        · simp only [hc, and_self, not_false_eq_true, if_true, ne_eq, List.toFinset_cons]
          ext a
          simp only [Finset.mem_union, Finset.mem_insert, Finset.mem_erase, List.mem_toFinset]
          constructor
          · rintro ((h1 | h1) | h1)
            · right; exact ⟨fun e => hc (e ▸ h1.symm), Or.inl h1⟩
            · left; exact h1
            · right; exact ⟨h1.1, Or.inr h1.2⟩
          · rintro (h1 | ⟨h1, h2 | h2⟩)
            · left; right; exact h1
            · left; left; exact h2
            · right; exact ⟨h1, h2⟩
      · simp [hx]

theorem addDependGElements_apply (h : Heap) (t : Nat) (elements : Finset Nat) (x : Nat) :
    (addDependGElements h t elements).2 x =
      { h x with
        dependence_ :=
          if x = t then (h x).dependence_ ∪ (elements.erase t) else (h x).dependence_
        run_before_ :=
          if x ∈ elements ∧ x ≠ t then insert t (h x).run_before_ else (h x).run_before_
        left_depend_ :=
          if x = t then (((h x).dependence_ ∪ (elements.erase t)).card : Int)
          else (h x).left_depend_ } := by
  have hfin : (ptrSetToList elements).toFinset = elements := by
    ext a
    simp [mem_ptrSetToList]
  unfold addDependGElements
  by_cases hx : x = t
  · subst hx
    simp [Heap.set, addDependLoop_apply, hfin]
  · simp [Heap.set, addDependLoop_apply, hx, mem_ptrSetToList]

theorem addDependGElements_status (h : Heap) (this : Nat) (elements : Finset Nat) :
    (addDependGElements h this elements).1 = {} := rfl

theorem addDependGElements_symmetric (h : Heap) (t : Nat) (elements : Finset Nat)
    (hs : Symmetric h) : Symmetric (addDependGElements h t elements).2 := by
  intro a b
  rw [addDependGElements_apply, addDependGElements_apply]
  simp only
  have hab := hs a b
  by_cases hb : b = t
  · subst hb
    by_cases ha : a ∈ elements ∧ a ≠ b
    · simp [ha, ha.1, ha.2]
    · rw [if_neg ha]
      simp only [if_true, Finset.mem_union, Finset.mem_erase]
      rw [hab]
      constructor
      · rintro (h1 | h1)
        · exact h1
        · exact absurd ⟨h1.2, h1.1⟩ ha
      · intro h1
        exact Or.inl h1
  · rw [if_neg hb, hab]
    by_cases ha : a ∈ elements ∧ a ≠ t
    · rw [if_pos ha]
      simp [hb]
    · rw [if_neg ha]

theorem wire_symmetric (h : Heap) (calls : List (Nat × Finset Nat)) (hs : Symmetric h) :
    Symmetric (wire h calls) :=
  foldl_preserves Symmetric _ calls h hs
    (fun t c _ ht => addDependGElements_symmetric t c.1 c.2 ht)

theorem wire_closed (h : Heap) (calls : List (Nat × Finset Nat)) (elems : List Nat)
    (hh : ∀ x d, d ∈ (h x).dependence_ → d ∈ elems)
    (hc : ∀ c ∈ calls, c.1 ∈ elems ∧ ∀ d ∈ c.2, d ∈ elems) :
    ∀ x d, d ∈ ((wire h calls) x).dependence_ → d ∈ elems := by
  refine foldl_preserves (fun hp : Heap => ∀ x d, d ∈ (hp x).dependence_ → d ∈ elems) _ calls h hh ?_
  intro hp c hcm hP x d hd
  rw [addDependGElements_apply] at hd
  simp only at hd
  by_cases hx : x = c.1
  · rw [if_pos hx, Finset.mem_union, Finset.mem_erase] at hd
    rcases hd with hd | hd
    · exact hP x d hd
    · exact (hc c hcm).2 d hd.2
  · rw [if_neg hx] at hd
    exact hP x d hd

theorem beforeRun_apply (h : Heap) (t x : Nat) :
    (beforeRun h t).2 x =
      if x = t then
        { h x with done_ := false, left_depend_ := ((h x).dependence_.card : Int) }
      else h x := by
  unfold beforeRun
  by_cases hx : x = t
  · subst hx
    simp [Heap.set]
  · simp [Heap.set, hx]

theorem beforeRunAll_apply (l : List Nat) (h : Heap) (x : Nat) :
    (beforeRunAll h l) x =
      if x ∈ l then
        { h x with done_ := false, left_depend_ := ((h x).dependence_.card : Int) }
      else h x := by
  unfold beforeRunAll
  induction l generalizing h with
  | nil => simp
  | cons t l ih =>
    rw [List.foldl_cons, ih, beforeRun_apply]
    by_cases hx : x = t
    · subst hx
      by_cases hl : x ∈ l <;> simp [hl]
    · by_cases hl : x ∈ l <;> simp [hl, hx]

theorem afterRunLoop_apply (l : List Nat) (h : Heap) (x : Nat) :
    (l.foldl afterRunBody h) x =
      { h x with left_depend_ := (h x).left_depend_ - (l.count x : Int) } := by
  induction l generalizing h with
  | nil => simp
  | cons el l ih =>
    rw [List.foldl_cons, ih]
    unfold afterRunBody
    by_cases hx : x = el
    · subst hx
      apply GElement.ext <;> simp [Heap.set]
      omega
    · have hx2 : el ≠ x := fun e => hx e.symm
      apply GElement.ext <;> simp [Heap.set, hx, List.count_cons, hx2]

theorem afterRun_apply (h : Heap) (t x : Nat) :
    (afterRun h t).2 x =
      { h x with
        left_depend_ := (h x).left_depend_ - (if x ∈ (h t).run_before_ then 1 else 0)
        done_ := if x = t then true else (h x).done_ } := by
  have hcount : ((ptrSetToList (h t).run_before_).count x : Int) =
      if x ∈ (h t).run_before_ then 1 else 0 := by
    by_cases hm : x ∈ (h t).run_before_
    · rw [if_pos hm, List.count_eq_one_of_mem (nodup_ptrSetToList _) ((mem_ptrSetToList _ _).2 hm)]
      rfl
    · rw [if_neg hm, List.count_eq_zero_of_not_mem (fun hc => hm ((mem_ptrSetToList _ _).1 hc))]
      rfl
  unfold afterRun
  by_cases hx : x = t
  · subst hx
    apply GElement.ext <;> simp [Heap.set, afterRunLoop_apply, hcount]
  · apply GElement.ext <;> simp [Heap.set, afterRunLoop_apply, hcount, hx]

theorem beforeRunAll_inv (hw : Heap) (elems : List Nat)
    (hcl : ∀ x d, d ∈ (hw x).dependence_ → d ∈ elems) :
    RunInv hw elems (beforeRunAll hw elems) ∧
      ∀ x ∈ elems, ((beforeRunAll hw elems) x).done_ = false := by
  have hdone : ∀ x ∈ elems, ((beforeRunAll hw elems) x).done_ = false := by
    intro x hx
    rw [beforeRunAll_apply, if_pos hx]
  refine ⟨⟨?_, ?_, ?_⟩, hdone⟩
  · intro x
    rw [beforeRunAll_apply]
    split_ifs <;> rfl
  · intro x
    rw [beforeRunAll_apply]
    split_ifs <;> rfl
  · intro e he
    rw [beforeRunAll_apply, if_pos he]
    simp only
    rw [Finset.filter_true_of_mem]
    intro d hd
    exact hdone d (hcl e d hd)

theorem afterRun_inv (hw : Heap) (elems : List Nat) (h : Heap) (t : Nat)
    (hsym : Symmetric hw) (hinv : RunInv hw elems h) (ht : (h t).done_ = false) :
    RunInv hw elems (afterRun h t).2 := by
  refine ⟨?_, ?_, ?_⟩
  · intro x
    rw [afterRun_apply]
    exact hinv.dep x
  · intro x
    rw [afterRun_apply]
    exact hinv.rb x
  · intro e he
    rw [afterRun_apply]
    simp only
    rw [hinv.left e he, hinv.rb t]
    have hfilter : ((hw e).dependence_).filter (fun d => ((afterRun h t).2 d).done_ = false) =
        (((hw e).dependence_).filter (fun d => (h d).done_ = false)).erase t := by
      ext d
      simp only [Finset.mem_filter, Finset.mem_erase, afterRun_apply]
      by_cases hd : d = t
      · subst hd
        simp
      · simp [hd]
    rw [hfilter]
    by_cases hm : e ∈ (hw t).run_before_
    · have hmem : t ∈ ((hw e).dependence_).filter (fun d => (h d).done_ = false) := by
        rw [Finset.mem_filter]
        exact ⟨(hsym t e).2 hm, ht⟩
      rw [if_pos hm, Finset.card_erase_of_mem hmem]
      have hpos : 0 < (((hw e).dependence_).filter (fun d => (h d).done_ = false)).card :=
        Finset.card_pos.2 ⟨t, hmem⟩
      omega
    · have hnmem : t ∉ ((hw e).dependence_).filter (fun d => (h d).done_ = false) := by
        rw [Finset.mem_filter]
        exact fun hc => hm ((hsym t e).1 hc.1)
      rw [if_neg hm, Finset.erase_eq_of_not_mem hnmem]
      simp

theorem afterRunAll_inv (hw : Heap) (elems : List Nat) (hsym : Symmetric hw)
    (finished : List Nat) (h : Heap) (hinv : RunInv hw elems h)
    (hnd : finished.Nodup) (hfresh : ∀ x ∈ finished, (h x).done_ = false) :
    RunInv hw elems (afterRunAll h finished) := by
  unfold afterRunAll
  induction finished generalizing h with
  | nil => exact hinv
  | cons t l ih =>
    rw [List.foldl_cons]
    rw [List.nodup_cons] at hnd
    apply ih _ (afterRun_inv hw elems h t hsym hinv (hfresh t (List.mem_cons_self _ _))) hnd.2
    intro x hx
    rw [afterRun_apply]
    have hxt : x ≠ t := fun e => hnd.1 (e ▸ hx)
    simp only [hxt, if_false]
    exact hfresh x (List.mem_cons_of_mem _ hx)

/-- The readiness invariant holds in every state reached from a freshly wired graph by
`beforeRun` on every element and then `afterRun` on distinct elements. -/
theorem run_phase_inv (h0 : Heap) (calls : List (Nat × Finset Nat)) (elems finished : List Nat)
    (hempty : ∀ x, (h0 x).dependence_ = ∅ ∧ (h0 x).run_before_ = ∅)
    (hall : ∀ c ∈ calls, c.1 ∈ elems ∧ ∀ d ∈ c.2, d ∈ elems)
    (hnd : finished.Nodup) (hsub : ∀ x ∈ finished, x ∈ elems) :
    RunInv (wire h0 calls) elems
      (afterRunAll (beforeRunAll (wire h0 calls) elems) finished) := by
  have hsym : Symmetric (wire h0 calls) := by
    apply wire_symmetric
    intro a b
    rw [(hempty b).1, (hempty a).2]
    simp
  have hcl : ∀ x d, d ∈ ((wire h0 calls) x).dependence_ → d ∈ elems := by
    apply wire_closed h0 calls elems _ hall
    intro x d hd
    rw [(hempty x).1] at hd
    simp at hd
  have hb := beforeRunAll_inv (wire h0 calls) elems hcl
  exact afterRunAll_inv _ elems hsym finished _ hb.1 hnd (fun x hx => hb.2 x (hsub x hx))

/-- C1: in a graph wired by addDependGElements from elements with empty sets, after
beforeRun on every element and afterRun on any sequence of distinct elements, an
element is runnable iff it is not done and every element of its dependence is done.
On the diamond: only A is runnable at first; after A.afterRun exactly B and C are;
D is not runnable after only one of B, C has finished and is runnable after both. -/
theorem isRunnable_iff_dependences_done :
    (∀ (h0 : Heap) (calls : List (Nat × Finset Nat)) (elems finished : List Nat),
      (∀ x, (h0 x).dependence_ = ∅ ∧ (h0 x).run_before_ = ∅) →
      (∀ c ∈ calls, c.1 ∈ elems ∧ ∀ d ∈ c.2, d ∈ elems) →
      finished.Nodup → (∀ x ∈ finished, x ∈ elems) →
      ∀ B ∈ elems,
        (isRunnable (afterRunAll (beforeRunAll (wire h0 calls) elems) finished) B = true ↔
          ((afterRunAll (beforeRunAll (wire h0 calls) elems) finished) B).done_ = false ∧
          ∀ d ∈ ((afterRunAll (beforeRunAll (wire h0 calls) elems) finished) B).dependence_,
            ((afterRunAll (beforeRunAll (wire h0 calls) elems) finished) d).done_ = true)) ∧
    ([0, 1, 2, 3].map (isRunnable (diamond [])) = [true, false, false, false] ∧
      [0, 1, 2, 3].map (isRunnable (diamond [0])) = [false, true, true, false] ∧
      [0, 1, 2, 3].map (isRunnable (diamond [0, 1])) = [false, false, true, false] ∧
      [0, 1, 2, 3].map (isRunnable (diamond [0, 2])) = [false, true, false, false] ∧
      [0, 1, 2, 3].map (isRunnable (diamond [0, 1, 2])) = [false, false, false, true] ∧
      [0, 1, 2, 3].map (isRunnable (diamond [0, 2, 1])) = [false, false, false, true]) := by
  refine ⟨?_, by decide⟩
  intro h0 calls elems finished hempty hall hnd hsub B hB
  have hinv := run_phase_inv h0 calls elems finished hempty hall hnd hsub
  unfold isRunnable
  rw [hinv.left B hB, hinv.dep B]
  simp only [Bool.and_eq_true, decide_eq_true_eq, Bool.not_eq_true', ge_iff_le]
  constructor
  · rintro ⟨hle, hdone⟩
    refine ⟨hdone, ?_⟩
    intro d hd
    by_contra hnot
    have hmem : d ∈ ((wire h0 calls B).dependence_).filter
        (fun d => ((afterRunAll (beforeRunAll (wire h0 calls) elems) finished) d).done_ = false) := by
      rw [Finset.mem_filter]
      exact ⟨hd, by simpa using hnot⟩
    have hpos := Finset.card_pos.2 ⟨d, hmem⟩
    omega
  · rintro ⟨hdone, hall2⟩
    refine ⟨?_, hdone⟩
    rw [Finset.filter_false_of_mem]
    · simp
    · intro d hd
      simp [hall2 d hd]

/-- Witness of C1: the general statement applied to the diamond with A and B
finished, for the element D. -/
theorem isRunnable_iff_dependences_done_witness :
    ((∀ x, (Heap.fresh x).dependence_ = ∅ ∧ (Heap.fresh x).run_before_ = ∅) ∧
      (∀ c ∈ diamondCalls, c.1 ∈ [0, 1, 2, 3] ∧ ∀ d ∈ c.2, d ∈ [0, 1, 2, 3]) ∧
      [0, 1].Nodup ∧ (∀ x ∈ [0, 1], x ∈ [0, 1, 2, 3]) ∧ 3 ∈ [0, 1, 2, 3]) ∧
    (isRunnable (diamond [0, 1]) 3 = true ↔
      ((diamond [0, 1]) 3).done_ = false ∧
      ∀ d ∈ ((diamond [0, 1]) 3).dependence_, ((diamond [0, 1]) d).done_ = true) :=
  ⟨⟨fun _ => ⟨rfl, rfl⟩, by decide, by decide, by decide, by decide⟩,
    isRunnable_iff_dependences_done.1 Heap.fresh diamondCalls [0, 1, 2, 3] [0, 1]
      (fun _ => ⟨rfl, rfl⟩) (by decide) (by decide) (by decide) 3 (by decide)⟩

/-- C5: starting from elements whose dependence and run_before sets are empty, after
any sequence of addDependGElements calls, A is in B.dependence iff B is in
A.run_before, for all elements A and B. -/
theorem wire_dependence_iff_run_before (h0 : Heap) (calls : List (Nat × Finset Nat))
    (hempty : ∀ x, (h0 x).dependence_ = ∅ ∧ (h0 x).run_before_ = ∅) (A B : Nat) :
    A ∈ ((wire h0 calls) B).dependence_ ↔ B ∈ ((wire h0 calls) A).run_before_ := by
  apply wire_symmetric
  intro a b
  rw [(hempty b).1, (hempty a).2]
  simp

theorem wire_dependence_iff_run_before_witness :
    (∀ x, (Heap.fresh x).dependence_ = ∅ ∧ (Heap.fresh x).run_before_ = ∅) ∧
    (1 ∈ ((wire Heap.fresh diamondCalls) 3).dependence_ ↔
      3 ∈ ((wire Heap.fresh diamondCalls) 1).run_before_) ∧
    1 ∈ ((wire Heap.fresh diamondCalls) 3).dependence_ :=
  ⟨fun _ => ⟨rfl, rfl⟩,
    wire_dependence_iff_run_before Heap.fresh diamondCalls (fun _ => ⟨rfl, rfl⟩) 1 3, by decide⟩

/-- C6: e.addDependGElements(S) returns OK; afterwards e.dependence is the old set
united with S minus e, e is in d.run_before for every d of S other than e (and no
other set has changed), and e.left_depend is the size of the new e.dependence. The
self-loop is skipped: e enters neither e.dependence nor e.run_before, the call
e.addDependGElements of the set holding only e changes no set, and an element with
empty dependence that was runnable is runnable afterwards. -/
theorem addDependGElements_spec (h : Heap) (e : Nat) (S : Finset Nat) :
    (addDependGElements h e S).1.isOK = true ∧
    ((addDependGElements h e S).2 e).dependence_ = (h e).dependence_ ∪ (S \ {e}) ∧
    (∀ d ∈ S, d ≠ e →
      ((addDependGElements h e S).2 d).run_before_ = insert e (h d).run_before_ ∧
      e ∈ ((addDependGElements h e S).2 d).run_before_) ∧
    (∀ d, d ∉ S ∨ d = e → ((addDependGElements h e S).2 d).run_before_ = (h d).run_before_) ∧
    (∀ d, d ≠ e → ((addDependGElements h e S).2 d).dependence_ = (h d).dependence_) ∧
    ((addDependGElements h e S).2 e).left_depend_ =
      (((addDependGElements h e S).2 e).dependence_.card : Int) ∧
    (e ∈ ((addDependGElements h e S).2 e).dependence_ ↔ e ∈ (h e).dependence_) ∧
    (∀ x, ((addDependGElements h e {e}).2 x).dependence_ = (h x).dependence_ ∧
      ((addDependGElements h e {e}).2 x).run_before_ = (h x).run_before_) ∧
    ((h e).dependence_ = ∅ → isRunnable (addDependGElements h e {e}).2 e = !(h e).done_) ∧
    ((h e).dependence_ = ∅ → isRunnable h e = true →
      isRunnable (addDependGElements h e {e}).2 e = true) := by
  have hsd : S \ {e} = S.erase e := by
    ext a
    simp [Finset.mem_sdiff, Finset.mem_erase, and_comm]
  have hself : ∀ x, ((addDependGElements h e {e}).2 x).dependence_ = (h x).dependence_ ∧
      ((addDependGElements h e {e}).2 x).run_before_ = (h x).run_before_ := by
    intro x
    rw [addDependGElements_apply]
    by_cases hx : x = e
    · simp [hx]
    · simp [hx]
  have hrun : (h e).dependence_ = ∅ →
      isRunnable (addDependGElements h e {e}).2 e = !(h e).done_ := by
    intro hd
    unfold isRunnable
    rw [addDependGElements_apply]
    simp [hd]
  refine ⟨rfl, ?_, ?_, ?_, ?_, ?_, ?_, hself, hrun, ?_⟩
  · rw [addDependGElements_apply, hsd]
    simp
  · intro d hd hde
    rw [addDependGElements_apply]
    simp [hd, hde]
  · intro d hd
    rw [addDependGElements_apply]
    rcases hd with hd | hd
    · simp [hd]
    · simp [hd]
  · intro d hd
    rw [addDependGElements_apply]
    simp [hd]
  · rw [addDependGElements_apply]
    simp
  · rw [addDependGElements_apply]
    simp
  · intro hd hr
    rw [hrun hd]
    unfold isRunnable at hr
    simp only [Bool.and_eq_true, Bool.not_eq_true'] at hr
    simp [hr.2]

theorem addDependGElements_spec_witness :
    ((2 : Nat) ∈ ({1, 2, 3} : Finset Nat) ∧ (2 : Nat) ≠ 3) ∧
    ((addDependGElements Heap.fresh 3 {1, 2, 3}).2 2).run_before_ =
      insert 3 (Heap.fresh 2).run_before_ ∧
    3 ∈ ((addDependGElements Heap.fresh 3 {1, 2, 3}).2 2).run_before_ ∧
    ((addDependGElements Heap.fresh 3 {1, 2, 3}).2 3).dependence_ = {1, 2} ∧
    ((addDependGElements Heap.fresh 3 {1, 2, 3}).2 3).left_depend_ = 2 ∧
    ((Heap.fresh 3).dependence_ = ∅ ∧ isRunnable Heap.fresh 3 = true) ∧
    isRunnable (addDependGElements Heap.fresh 3 {3}).2 3 = true :=
  ⟨by decide,
    ((addDependGElements_spec Heap.fresh 3 {1, 2, 3}).2.2.1 2 (by decide) (by decide)).1,
    ((addDependGElements_spec Heap.fresh 3 {1, 2, 3}).2.2.1 2 (by decide) (by decide)).2,
    by decide, by decide, by decide,
    (addDependGElements_spec Heap.fresh 3 {1, 2, 3}).2.2.2.2.2.2.2.2.2 (by decide) (by decide)⟩

/-- C7, the claim refuted on the code: after B.addDependGElements of A, the call
A.addDependGElements of B returns an OK status and adds the edge, so A and B depend
on each other (A = 0, B = 1, fresh elements). -/
theorem cycle_is_wired_example :
    (addDependGElements (addDependGElements Heap.fresh 1 {0}).2 0 {1}).1.isOK = true ∧
    1 ∈ ((addDependGElements (addDependGElements Heap.fresh 1 {0}).2 0 {1}).2 0).dependence_ ∧
    0 ∈ ((addDependGElements (addDependGElements Heap.fresh 1 {0}).2 0 {1}).2 1).dependence_ ∧
    ¬ ((addDependGElements (addDependGElements Heap.fresh 1 {0}).2 0 {1}).1.isOK = false ∧
        ∀ x, ((addDependGElements (addDependGElements Heap.fresh 1 {0}).2 0 {1}).2 x).dependence_ =
          ((addDependGElements Heap.fresh 1 {0}).2 x).dependence_) := by
  refine ⟨by decide, by decide, by decide, ?_⟩
  intro hc
  exact absurd hc.1 (by decide)

/-- C7 as amended: addDependGElements makes no cycle check. For distinct A and B, in
any heap, after B.addDependGElements of A the call A.addDependGElements of B returns
OK and adds the edge: B is in A.dependence and A in B.run_before, while A stays in
B.dependence and B in A.run_before, so the two depend on each other. -/
theorem addDependGElements_wires_cycle (h : Heap) (A B : Nat) (hAB : A ≠ B) :
    (addDependGElements (addDependGElements h B {A}).2 A {B}).1.isOK = true ∧
    B ∈ ((addDependGElements (addDependGElements h B {A}).2 A {B}).2 A).dependence_ ∧
    A ∈ ((addDependGElements (addDependGElements h B {A}).2 A {B}).2 B).run_before_ ∧
    A ∈ ((addDependGElements (addDependGElements h B {A}).2 A {B}).2 B).dependence_ ∧
    B ∈ ((addDependGElements (addDependGElements h B {A}).2 A {B}).2 A).run_before_ := by
  have hBA : B ≠ A := fun e => hAB e.symm
  refine ⟨rfl, ?_, ?_, ?_, ?_⟩
  · rw [addDependGElements_apply]
    simp [hBA]
  · rw [addDependGElements_apply]
    simp [hBA]
  · rw [addDependGElements_apply, addDependGElements_apply]
    simp [hBA, hAB]
  · rw [addDependGElements_apply, addDependGElements_apply]
    simp [hBA, hAB]

theorem addDependGElements_wires_cycle_witness :
    (0 : Nat) ≠ 1 ∧
    ((addDependGElements (addDependGElements Heap.fresh 1 {0}).2 0 {1}).1.isOK = true ∧
    1 ∈ ((addDependGElements (addDependGElements Heap.fresh 1 {0}).2 0 {1}).2 0).dependence_ ∧
    0 ∈ ((addDependGElements (addDependGElements Heap.fresh 1 {0}).2 0 {1}).2 1).run_before_ ∧
    0 ∈ ((addDependGElements (addDependGElements Heap.fresh 1 {0}).2 0 {1}).2 1).dependence_ ∧
    1 ∈ ((addDependGElements (addDependGElements Heap.fresh 1 {0}).2 0 {1}).2 0).run_before_) :=
  ⟨by decide, addDependGElements_wires_cycle Heap.fresh 0 1 (by decide)⟩

/-! ## Theorems: the phase processor -/

theorem doAspect_counts {W : Type} (hk : Hooks W) (e : GElement) (t : GAspectType)
    (cur : CStatus) (s : Sys W) :
    runCalls (doAspect hk e t cur s).2.trace = runCalls s.trace ∧
    holdRepeats (doAspect hk e t cur s).2.trace = holdRepeats s.trace ∧
    unsuccessful s.trace ≤ unsuccessful (doAspect hk e t cur s).2.trace ∧
    (t = GAspectType.BEGIN_RUN → (doAspect hk e t cur s).1.isOK = false →
      unsuccessful (doAspect hk e t cur s).2.trace = unsuccessful s.trace + 1) := by
  unfold doAspect
  cases hm : e.aspect_manager_ with
  | none => simp [CStatus.isOK]
  | some m =>
    by_cases hsz : 0 ≠ m.size
    · simp only [hsz, if_true, ne_eq, not_false_eq_true]
      refine ⟨?_, ?_, ?_, ?_⟩
      · simp [runCalls, List.countP_append, List.countP_cons, Event.isRunCall]
      · simp [holdRepeats, List.countP_append, List.countP_cons, Event.isHoldTrue]
      · simp [unsuccessful, List.countP_append]
      · intro ht hr
        subst ht
        simp [unsuccessful, List.countP_append, List.countP_cons, Event.isRunNotOK,
          Event.isBeginRunVeto, Event.isHoldThrow, hr]
    · simp only [hsz, if_false]
      simp [CStatus.isOK]

/-- The RUN loop returns whenever every hold loop finishes within `fuel` passes. -/
theorem runLoop_returns {W : Type} (hk : Hooks W) (e : GElement) (fuel : Nat)
    (hfin : ∀ s, runHold hk fuel s ≠ none) (todo : Nat) (status : CStatus) (s : Sys W) :
    ∃ r s1, runLoop hk e fuel todo status s = some (r, s1) := by
  induction todo generalizing status s with
  | zero => exact ⟨_, _, rfl⟩
  | succ todo ih =>
    unfold runLoop
    simp only
    by_cases hv : CGRAPH_FUNCTION_CHECK_STATUS (doAspect hk e GAspectType.BEGIN_RUN {} s).1 = true
    · rw [if_pos hv]
      exact ⟨_, _, rfl⟩
    · rw [if_neg hv]
      cases hrh : runHold hk fuel (doAspect hk e GAspectType.BEGIN_RUN {} s).2 with
      | none => exact absurd hrh (hfin _)
      | some p =>
        rcases p with ⟨o, s2⟩
        cases o with
        | thrown ex => exact ⟨_, _, rfl⟩
        | returned st =>
          simp only
          exact ih st _

/-- The RUN phase returns whenever every hold loop finishes within `fuel` passes. -/
theorem fatProcessor_run_returns {W : Type} (hk : Hooks W) (e : GElement) (fuel : Nat)
    (hfin : ∀ s, runHold hk fuel s ≠ none) (s : Sys W) :
    ∃ r s1, fatProcessor hk e CFunctionType.RUN fuel s = some (r, s1) := by
  obtain ⟨o, s2, hl⟩ := runLoop_returns hk e fuel hfin e.loop_ {} s
  unfold fatProcessor fatProcessorTry
  simp only [hl]
  cases o with
  | returned st => exact ⟨_, _, rfl⟩
  | thrown ex => exact ⟨_, _, rfl⟩

/-- A hold loop whose `isHold` never answers true finishes in one pass. -/
theorem runHold_never_holding {W : Type} (hk : Hooks W) (fuel : Nat)
    (hnever : ∀ w, (hk.isHold w).1 ≠ HoldOutcome.answered true) (s : Sys W) :
    runHold hk (fuel + 1) s ≠ none := by
  unfold runHold
  rcases hrun : hk.run s.world with ⟨o, w⟩
  cases o with
  | thrown ex => simp
  | returned status =>
    simp only
    by_cases hok : status.isOK = true
    · rw [if_pos hok]
      have hn := hnever w
      rcases hh : hk.isHold w with ⟨ho, w2⟩
      rw [hh] at hn
      cases ho with
      | thrown ex => simp
      | answered hold =>
        cases hold with
        | true => exact absurd rfl hn
        | false => simp
    · rw [if_neg hok]
      simp

/-- C8, the code at the failing input: with loop = 2 and a `run` that returns code 7
on its first call and OK on its second, fatProcessor(RUN) goes on after the failure.
With one registered aspect the BEGIN_RUN hook group and `run` are both invoked a second
time; with no aspect `run` is. In both cases the status returned is OK and the code 7
is lost. -/
theorem fatProcessor_run_continues_after_failure :
    fatProcessor failFirstRunHooks { loop_ := 2, aspect_manager_ := some ⟨"", 1⟩ }
        CFunctionType.RUN 1 ⟨0, []⟩ =
      some (Outcome.returned {}, ⟨2, [Event.aspect GAspectType.BEGIN_RUN {} {},
        Event.run (Outcome.returned ⟨7, "run failed"⟩),
        Event.aspect GAspectType.FINISH_RUN ⟨7, "run failed"⟩ {},
        Event.aspect GAspectType.BEGIN_RUN {} {},
        Event.run (Outcome.returned {}), Event.isHold false,
        Event.aspect GAspectType.FINISH_RUN {} {}]⟩) ∧
    fatProcessor failFirstRunHooks { loop_ := 2 } CFunctionType.RUN 1 ⟨0, []⟩ =
      some (Outcome.returned {}, ⟨2, [Event.run (Outcome.returned ⟨7, "run failed"⟩),
        Event.run (Outcome.returned {}), Event.isHold false]⟩) ∧
    (⟨7, "run failed"⟩ : CStatus).isOK = false := by
  refine ⟨?_, ?_, ?_⟩
  · decide
  · decide
  · decide

/-- C19: in a graph wired by addDependGElements from elements with empty sets, in
every state reached by beforeRun on every element and then afterRun on any sequence
of distinct elements, left_depend of every element equals the number of elements of
its dependence that are not done. -/
theorem left_depend_counts_pending (h0 : Heap) (calls : List (Nat × Finset Nat))
    (elems finished : List Nat)
    (hempty : ∀ x, (h0 x).dependence_ = ∅ ∧ (h0 x).run_before_ = ∅)
    (hall : ∀ c ∈ calls, c.1 ∈ elems ∧ ∀ d ∈ c.2, d ∈ elems)
    (hnd : finished.Nodup) (hsub : ∀ x ∈ finished, x ∈ elems) (e : Nat) (he : e ∈ elems) :
    ((afterRunAll (beforeRunAll (wire h0 calls) elems) finished) e).left_depend_ =
      (((((afterRunAll (beforeRunAll (wire h0 calls) elems) finished) e).dependence_).filter
        (fun d => ((afterRunAll (beforeRunAll (wire h0 calls) elems) finished) d).done_ = false)).card
          : Int) := by
  have hinv := run_phase_inv h0 calls elems finished hempty hall hnd hsub
  rw [hinv.left e he, hinv.dep e]

/-- Witness of C19: the diamond with A finished, at the element D, whose two
dependences B and C are both pending. -/
theorem left_depend_counts_pending_witness :
    ((∀ x, (Heap.fresh x).dependence_ = ∅ ∧ (Heap.fresh x).run_before_ = ∅) ∧
      (∀ c ∈ diamondCalls, c.1 ∈ [0, 1, 2, 3] ∧ ∀ d ∈ c.2, d ∈ [0, 1, 2, 3]) ∧
      [0].Nodup ∧ (∀ x ∈ [0], x ∈ [0, 1, 2, 3]) ∧ 3 ∈ [0, 1, 2, 3]) ∧
    ((diamond [0]) 3).left_depend_ =
      (((((diamond [0]) 3).dependence_).filter
        (fun d => ((diamond [0]) d).done_ = false)).card : Int) ∧
    ((diamond [0]) 3).left_depend_ = 2 ∧ ((diamond [0]) 1).left_depend_ = 0 ∧
    ((diamond [0, 1]) 3).left_depend_ = 1 ∧ ((diamond [0, 1, 2]) 3).left_depend_ = 0 :=
  ⟨⟨fun _ => ⟨rfl, rfl⟩, by decide, by decide, by decide, by decide⟩,
    left_depend_counts_pending Heap.fresh diamondCalls [0, 1, 2, 3] [0]
      (fun _ => ⟨rfl, rfl⟩) (by decide) (by decide) (by decide) 3 (by decide),
    by decide, by decide, by decide, by decide⟩

end GElement

/-! ## Theorems: the batched drain -/

namespace UAtomicQueue

theorem tryPopUpTo_eq {α : Type} (dflt : α) (n : Nat) (q b : List α) :
    tryPopUpTo dflt n q b = (q.drop n, b ++ q.take n) := by
  induction n generalizing q b with
  | zero => simp [tryPopUpTo]
  | succ n ih =>
    cases q with
    | nil => simp [tryPopUpTo, tryPop]
    | cons a l =>
      simp only [tryPopUpTo, tryPop]
      rw [ih]
      simp

/-- C20: for n > 0 the batched tryPop leaves the queue and the vector in exactly the
state reached by calling the single-value tryPop up to n times, stopping at the first
call that returns false and appending each popped value; and it returns true iff the
first of those single calls returns true. -/
theorem tryPopBatch_refines_single {α : Type} (dflt : α) (q b : List α) (n : Int)
    (hn : 0 < n) :
    (tryPopBatch q b n).2.2 = (tryPopUpTo dflt n.toNat q b).1 ∧
    (tryPopBatch q b n).2.1 = (tryPopUpTo dflt n.toNat q b).2 ∧
    (tryPopBatch q b n).1 = (tryPop q dflt).1 := by
  rw [tryPopUpTo_eq]
  cases q with
  | nil =>
    rw [tryPopBatch_neg [] b n (Or.inr rfl)]
    simp [tryPop]
  | cons a l =>
    rw [tryPopBatch_pos (a :: l) b n hn (by simp)]
    simp [tryPop]

theorem tryPopBatch_refines_single_witness :
    (0 : Int) < 2 ∧
    ((tryPopBatch ([10, 20, 30] : List Nat) [1] 2).2.2 = (tryPopUpTo 0 (2 : Int).toNat [10, 20, 30] [1]).1 ∧
      (tryPopBatch ([10, 20, 30] : List Nat) [1] 2).2.1 = (tryPopUpTo 0 (2 : Int).toNat [10, 20, 30] [1]).2 ∧
      (tryPopBatch ([10, 20, 30] : List Nat) [1] 2).1 = (tryPop [10, 20, 30] 0).1) ∧
    tryPopUpTo (0 : Nat) 2 [10, 20, 30] [1] = ([30], [1, 10, 20]) ∧
    tryPopUpTo (0 : Nat) 5 [10, 20, 30] [1] = ([], [1, 10, 20, 30]) ∧
    tryPopBatch ([10, 20, 30] : List Nat) [1] 5 = (true, [1, 10, 20, 30], []) :=
  ⟨by decide, tryPopBatch_refines_single (0 : Nat) [10, 20, 30] [1] 2 (by decide), by decide,
    by decide, by decide⟩

theorem Session.run_append {α : Type} (dflt : α) (a b : List (Op α)) (s : Session α) :
    Session.run dflt s (a ++ b) = (Session.run dflt s a).bind (fun s1 => Session.run dflt s1 b) := by
  induction a generalizing s with
  | nil => simp [Session.run]
  | cons op a ih =>
    simp only [List.cons_append, Session.run]
    cases Session.step dflt s op with
    | none => simp
    | some s1 => simp [ih]

theorem Session.run_pushes {α : Type} (dflt : α) (vs : List α) (s : Session α) :
    Session.run dflt s (vs.map Op.push) =
      some ⟨s.queue ++ vs, s.pushed ++ vs, s.popped⟩ := by
  induction vs generalizing s with
  | nil => simp [Session.run]
  | cons v vs ih =>
    simp only [List.map_cons, Session.run, Session.step]
    rw [ih]
    simp [push]

theorem batchedDrain_run {α : Type} (dflt : α) (vs : List α) (hlen : vs.length = 100) :
    Session.run dflt Session.init (batchedDrainOps vs) =
      some ⟨vs.drop 97, vs, vs.take 97⟩ := by
  have h0 : vs ≠ [] := by
    intro h
    rw [h] at hlen
    simp at hlen
  have h32 : vs.drop 32 ≠ [] := by
    intro h
    have := congrArg List.length h
    simp [hlen] at this
  have h64 : vs.drop 64 ≠ [] := by
    intro h
    have := congrArg List.length h
    simp [hlen] at this
  have h96 : vs.drop 96 = vs[96] :: vs.drop 97 := by
    rw [List.drop_eq_getElem_cons (by omega)]
  have ht : vs.take 96 ++ [vs[96]] = vs.take 97 := by
    have h1 : vs.take (96 + 1) = vs.take 96 ++ vs[96]?.toList := List.take_succ
    rw [List.getElem?_eq_getElem (show 96 < vs.length by omega)] at h1
    exact h1.symm
  unfold batchedDrainOps
  rw [Session.run_append, Session.run_pushes]
  simp only [Session.init, List.nil_append, Option.some_bind, Session.run, Session.step]
  have hb : ∀ q : List α, q ≠ [] → tryPopBatch q [] 32 = (true, q.take 32, q.drop 32) := by
    intro q hq
    rw [tryPopBatch_pos q [] 32 (by decide) hq]
    rfl
  rw [hb vs h0]
  simp only
  rw [hb (vs.drop 32) h32]
  simp only [List.drop_drop]
  rw [hb (vs.drop (32 + 32)) h64]
  simp only [List.drop_drop]
  have hq : vs.drop (32 + (32 + 32)) = vs[96] :: vs.drop 97 := h96
  rw [hq]
  simp only [waitPop]
  have hp : vs.take 32 ++ (vs.drop 32).take 32 ++ (vs.drop (32 + 32)).take 32 = vs.take 96 := by
    rw [← List.take_add, ← List.take_add]
  rw [hp, ht]

/-- C18, the claim refuted on the code: after pushing the values 0 .. 99, three
batched tryPop with bound 32 and one waitPop have returned the values 0 .. 96 only;
97, 98 and 99 are still queued, and a following tryPop returns 97, not empty. -/
theorem batched_drain_leaves_three :
    Session.run (0 : Nat) Session.init (batchedDrainOps (List.range 100)) =
      some ⟨[97, 98, 99], List.range 100, List.range 97⟩ ∧
    List.range 97 ≠ List.range 100 ∧
    tryPop ([97, 98, 99] : List Nat) 0 = (true, 97, [98, 99]) ∧
    tryPopPtr ([97, 98, 99] : List Nat) = (some 97, [98, 99]) := by
  refine ⟨?_, by decide, rfl, rfl⟩
  rw [batchedDrain_run 0 (List.range 100) (by simp)]
  decide

/-- C18 as amended: after pushing 100 values onto an empty queue, three calls of
tryPop(batch, 32) followed by one waitPop return, taken together, the first 97 values
in push order; the last 3 values are still in the queue, in order, so a following
tryPop (either overload) returns the 98th value and is not empty. -/
theorem batched_drain_scenario {α : Type} (dflt : α) (vs : List α) (hlen : vs.length = 100) :
    Session.run dflt Session.init (batchedDrainOps vs) = some ⟨vs.drop 97, vs, vs.take 97⟩ ∧
    (vs.take 97).length = 97 ∧ (vs.drop 97).length = 3 ∧
    (∃ v rest, vs.drop 97 = v :: rest ∧ vs[97]? = some v ∧
      tryPop (vs.drop 97) dflt = (true, v, rest) ∧ tryPopPtr (vs.drop 97) = (some v, rest)) := by
  refine ⟨batchedDrain_run dflt vs hlen, by simp [hlen], by simp [hlen], ?_⟩
  refine ⟨vs[97], vs.drop 98, ?_, ?_, ?_, ?_⟩
  · rw [List.drop_eq_getElem_cons (by omega)]
  · exact List.getElem?_eq_getElem (by omega)
  · rw [List.drop_eq_getElem_cons (show 97 < vs.length by omega)]
    rfl
  · rw [List.drop_eq_getElem_cons (show 97 < vs.length by omega)]
    rfl

theorem batched_drain_scenario_witness :
    (List.range 100).length = 100 ∧
    (Session.run (0 : Nat) Session.init (batchedDrainOps (List.range 100)) =
        some ⟨(List.range 100).drop 97, List.range 100, (List.range 100).take 97⟩ ∧
      ((List.range 100).take 97).length = 97 ∧ ((List.range 100).drop 97).length = 3 ∧
      (∃ v rest, (List.range 100).drop 97 = v :: rest ∧ (List.range 100)[97]? = some v ∧
        tryPop ((List.range 100).drop 97) 0 = (true, v, rest) ∧
        tryPopPtr ((List.range 100).drop 97) = (some v, rest))) :=
  ⟨by simp, batched_drain_scenario (0 : Nat) (List.range 100) (by simp)⟩

end UAtomicQueue

/-! ## Theorems: the shape of a RUN trace -/

namespace GElement

theorem doAspect_trace {W : Type} (hk : Hooks W) (e : GElement) (t : GAspectType)
    (cur : CStatus) (s : Sys W) :
    (doAspect hk e t cur s).2.trace =
        s.trace ++ aspectEvents (hasAspects e) t cur (doAspect hk e t cur s).1 ∧
      ((doAspect hk e t cur s).1.isOK = false → hasAspects e = true) := by
  unfold doAspect hasAspects aspectEvents
  cases e.aspect_manager_ with
  | none => simp [CStatus.isOK]
  | some m =>
    by_cases hsz : 0 ≠ m.size
    · simp [hsz]
    · simp [hsz, CStatus.isOK]

theorem runHold_trace {W : Type} (hk : Hooks W) (fuel : Nat) (s : Sys W) (r : Outcome)
    (s1 : Sys W) (h : runHold hk fuel s = some (r, s1)) :
    ∃ d, s1.trace = s.trace ++ d ∧ HoldTrace d r := by
  induction fuel generalizing s with
  | zero => simp [runHold] at h
  | succ fuel ih =>
    unfold runHold at h
    rcases hrun : hk.run s.world with ⟨o, w⟩
    rw [hrun] at h
    cases o with
    | thrown ex =>
      simp only [Option.some.injEq, Prod.mk.injEq] at h
      obtain ⟨h1, h2⟩ := h
      subst h1 h2
      exact ⟨_, rfl, HoldTrace.threw ex⟩
    | returned status =>
      simp only at h
      by_cases hok : status.isOK = true
      · rw [if_pos hok] at h
        rcases hh : hk.isHold w with ⟨ho, w2⟩
        rw [hh] at h
        cases ho with
        | thrown ex =>
          simp only [Option.some.injEq, Prod.mk.injEq] at h
          obtain ⟨h1, h2⟩ := h
          subst h1 h2
          refine ⟨[Event.run (Outcome.returned status), Event.holdThrew ex], ?_,
            HoldTrace.holdThrew status hok ex⟩
          simp
        | answered hold =>
          cases hold with
          | true =>
            simp only [if_true] at h
            obtain ⟨d, hd, ht⟩ := ih _ h
            refine ⟨Event.run (Outcome.returned status) :: Event.isHold true :: d, ?_,
              HoldTrace.held status hok d r ht⟩
            rw [hd]
            simp
          | false =>
            simp only [Bool.false_eq_true, if_false, Option.some.injEq, Prod.mk.injEq] at h
            obtain ⟨h1, h2⟩ := h
            subst h1 h2
            refine ⟨[Event.run (Outcome.returned status), Event.isHold false], ?_,
              HoldTrace.released status hok⟩
            simp
      · rw [if_neg hok] at h
        simp only [Option.some.injEq, Prod.mk.injEq] at h
        obtain ⟨h1, h2⟩ := h
        subst h1 h2
        exact ⟨_, rfl, HoldTrace.failed status (by simpa using hok)⟩

theorem runLoop_trace {W : Type} (hk : Hooks W) (e : GElement) (fuel todo : Nat)
    (status : CStatus) (s : Sys W) (r : Outcome) (s1 : Sys W)
    (h : runLoop hk e fuel todo status s = some (r, s1)) :
    ∃ d, s1.trace = s.trace ++ d ∧ LoopTrace (hasAspects e) todo status d r := by
  induction todo generalizing status s with
  | zero =>
    simp only [runLoop, Option.some.injEq, Prod.mk.injEq] at h
    obtain ⟨h1, h2⟩ := h
    subst h1 h2
    exact ⟨[], by simp, LoopTrace.finished status⟩
  | succ todo ih =>
    unfold runLoop at h
    have hb := doAspect_trace hk e GAspectType.BEGIN_RUN {} s
    simp only at h
    by_cases hveto : (doAspect hk e GAspectType.BEGIN_RUN {} s).1.isOK = true
    · simp only [CGRAPH_FUNCTION_CHECK_STATUS, hveto, Bool.not_true, Bool.false_eq_true,
        if_false] at h
      cases hrh : runHold hk fuel (doAspect hk e GAspectType.BEGIN_RUN {} s).2 with
      | none => simp [hrh] at h
      | some p =>
        rcases p with ⟨o, s2⟩
        obtain ⟨d, hd, ht⟩ := runHold_trace hk fuel _ o s2 hrh
        rw [hrh] at h
        cases o with
        | thrown ex =>
          simp only [Option.some.injEq, Prod.mk.injEq] at h
          obtain ⟨h1, h2⟩ := h
          subst h1 h2
          refine ⟨_, ?_, LoopTrace.threw todo status _ d ex hveto ht⟩
          rw [hd, hb.1, List.append_assoc]
        | returned st1 =>
          simp only at h
          have hf := doAspect_trace hk e GAspectType.FINISH_RUN st1 s2
          obtain ⟨rest, hrest, hlt⟩ := ih _ _ h
          refine ⟨_, ?_, LoopTrace.next todo status _ st1
            (doAspect hk e GAspectType.FINISH_RUN st1 s2).1 d rest r hveto ht hlt⟩
          rw [hrest, hf.1, hd, hb.1]
          simp only [List.append_assoc]
    · have hveto2 : (doAspect hk e GAspectType.BEGIN_RUN {} s).1.isOK = false := by
        simpa using hveto
      simp only [CGRAPH_FUNCTION_CHECK_STATUS, hveto2, Bool.not_false, if_true,
        Option.some.injEq, Prod.mk.injEq] at h
      obtain ⟨h1, h2⟩ := h
      subst h1 h2
      have hreg := hb.2 hveto2
      refine ⟨_, ?_, LoopTrace.vetoed todo status _ hreg hveto2⟩
      rw [hb.1, hreg]
      rfl

end GElement

theorem aspectEvents_finish_facts (reg : Bool) (st f : CStatus) (last : Option Outcome) :
    lastRunFrom last (aspectEvents reg GAspectType.FINISH_RUN st f) = last ∧
    finishSeesBody (some (Outcome.returned st))
      (aspectEvents reg GAspectType.FINISH_RUN st f) = true ∧
    runCalls (aspectEvents reg GAspectType.FINISH_RUN st f) = 0 ∧
    runThrows (aspectEvents reg GAspectType.FINISH_RUN st f) = 0 ∧
    beginRunPasses (aspectEvents reg GAspectType.FINISH_RUN st f) = 0 ∧
    (aspectEvents reg GAspectType.FINISH_RUN st f).countP Event.isCrashed = 0 ∧
    (∀ cur v, Event.aspect GAspectType.BEGIN_RUN cur v ∉
      aspectEvents reg GAspectType.FINISH_RUN st f) := by
  cases reg <;>
    simp [aspectEvents, lastRunFrom, finishSeesBody, Event.updLast, Event.finishOk, runCalls,
      runThrows, beginRunPasses, Event.isRunCall, Event.isRunThrow, Event.isBeginRunPass,
      Event.isCrashed]

theorem aspectEvents_clean (reg : Bool) (t : GAspectType) (cur res : CStatus) :
    runThrows (aspectEvents reg t cur res) = 0 ∧ holdThrows (aspectEvents reg t cur res) = 0 ∧
    (aspectEvents reg t cur res).countP Event.isCrashed = 0 := by
  cases reg <;>
    simp [aspectEvents, runThrows, holdThrows, Event.isRunThrow, Event.isHoldThrow,
      Event.isCrashed]

theorem clean_append (a b : List Event)
    (ha : runThrows a = 0 ∧ holdThrows a = 0 ∧ a.countP Event.isCrashed = 0)
    (hb : runThrows b = 0 ∧ holdThrows b = 0 ∧ b.countP Event.isCrashed = 0) :
    runThrows (a ++ b) = 0 ∧ holdThrows (a ++ b) = 0 ∧ (a ++ b).countP Event.isCrashed = 0 := by
  obtain ⟨a1, a2, a3⟩ := ha
  obtain ⟨b1, b2, b3⟩ := hb
  simp only [runThrows, holdThrows, List.countP_append] at a1 a2 b1 b2 ⊢
  omega

theorem HoldTrace.facts {d : List Event} {r : Outcome} (h : HoldTrace d r) :
    (∀ last st, r = Outcome.returned st → lastRunFrom last d = some (Outcome.returned st)) ∧
    (∀ last, finishSeesBody last d = true) ∧
    1 ≤ runCalls d ∧
    finishRunCalls d = 0 ∧ beginRunPasses d = 0 ∧ d.countP Event.isCrashed = 0 ∧
    (∀ t cur v, Event.aspect t cur v ∉ d) ∧
    (∀ st, r = Outcome.returned st → runThrows d = 0 ∧ holdThrows d = 0) ∧
    (∀ ex, r = Outcome.thrown ex →
      (∃ pre, d = pre ++ [Event.run (Outcome.thrown ex)] ∧
        runThrows pre = 0 ∧ holdThrows pre = 0 ∧ pre.countP Event.isCrashed = 0) ∨
      (∃ pre, d = pre ++ [Event.holdThrew ex] ∧
        runThrows pre = 0 ∧ holdThrows pre = 0 ∧ pre.countP Event.isCrashed = 0)) := by
  induction h with
  | threw ex =>
    refine ⟨?_, ?_, ?_, ?_, ?_, ?_, ?_, ?_, ?_⟩
    · intro last st hst; cases hst
    · intro last; rfl
    · simp [runCalls, Event.isRunCall]
    · simp [finishRunCalls, Event.isFinishRun]
    · simp [beginRunPasses, Event.isBeginRunPass]
    · simp [Event.isCrashed]
    · simp
    · intro st hst; cases hst
    · intro ex2 hex
      cases hex
      exact Or.inl ⟨[], rfl, rfl, rfl, rfl⟩
  | holdThrew st hst ex =>
    refine ⟨?_, ?_, ?_, ?_, ?_, ?_, ?_, ?_, ?_⟩
    · intro last st2 hst2; cases hst2
    · intro last; rfl
    · simp [runCalls, Event.isRunCall]
    · simp [finishRunCalls, Event.isFinishRun]
    · simp [beginRunPasses, Event.isBeginRunPass]
    · simp [Event.isCrashed]
    · simp
    · intro st2 hst2; cases hst2
    · intro ex2 hex
      cases hex
      exact Or.inr ⟨[Event.run (Outcome.returned st)], rfl, rfl, rfl, rfl⟩
  | failed st hst =>
    refine ⟨?_, ?_, ?_, ?_, ?_, ?_, ?_, ?_, ?_⟩
    · intro last st2 hst2; cases hst2; rfl
    · intro last; rfl
    · simp [runCalls, Event.isRunCall]
    · simp [finishRunCalls, Event.isFinishRun]
    · simp [beginRunPasses, Event.isBeginRunPass]
    · simp [Event.isCrashed]
    · simp
    · intro st2 _
      exact ⟨rfl, rfl⟩
    · intro ex2 hex; cases hex
  | released st hst =>
    refine ⟨?_, ?_, ?_, ?_, ?_, ?_, ?_, ?_, ?_⟩
    · intro last st2 hst2; cases hst2; rfl
    · intro last; rfl
    · simp [runCalls, Event.isRunCall]
    · simp [finishRunCalls, Event.isFinishRun]
    · simp [beginRunPasses, Event.isBeginRunPass]
    · simp [Event.isCrashed]
    · simp
    · intro st2 _
      exact ⟨rfl, rfl⟩
    · intro ex2 hex; cases hex
  | held st hst d r hd ih =>
    obtain ⟨i1, i2, i3, i4, i5, i6, i7, i8, i9⟩ := ih
    refine ⟨?_, ?_, ?_, ?_, ?_, ?_, ?_, ?_, ?_⟩
    · intro last st2 hst2
      simpa [lastRunFrom, Event.updLast] using i1 (some (Outcome.returned st)) st2 hst2
    · intro last
      simpa [finishSeesBody, Event.updLast, Event.finishOk] using i2 (some (Outcome.returned st))
    · simp only [runCalls, List.countP_cons, Event.isRunCall] at i3 ⊢
      omega
    · simpa [finishRunCalls, List.countP_cons, Event.isFinishRun] using i4
    · simpa [beginRunPasses, List.countP_cons, Event.isBeginRunPass] using i5
    · simpa [List.countP_cons, Event.isCrashed] using i6
    · intro t cur v hm
      simp only [List.mem_cons] at hm
      rcases hm with hm | hm | hm
      · cases hm
      · cases hm
      · exact i7 t cur v hm
    · intro st2 hst2
      have := i8 st2 hst2
      simpa [runThrows, holdThrows, List.countP_cons, Event.isRunThrow, Event.isHoldThrow]
        using this
    · intro ex hex
      rcases i9 ex hex with ⟨pre, hpre, hc1, hc2, hc3⟩ | ⟨pre, hpre, hc1, hc2, hc3⟩
      · refine Or.inl ⟨Event.run (Outcome.returned st) :: Event.isHold true :: pre, ?_, ?_, ?_, ?_⟩
        · rw [hpre]; rfl
        · simpa [runThrows, List.countP_cons, Event.isRunThrow] using hc1
        · simpa [holdThrows, List.countP_cons, Event.isHoldThrow] using hc2
        · simpa [List.countP_cons, Event.isCrashed] using hc3
      · refine Or.inr ⟨Event.run (Outcome.returned st) :: Event.isHold true :: pre, ?_, ?_, ?_, ?_⟩
        · rw [hpre]; rfl
        · simpa [runThrows, List.countP_cons, Event.isRunThrow] using hc1
        · simpa [holdThrows, List.countP_cons, Event.isHoldThrow] using hc2
        · simpa [List.countP_cons, Event.isCrashed] using hc3

theorem aspectEvents_begin_mem (reg : Bool) (b cur v : CStatus)
    (hm : Event.aspect GAspectType.BEGIN_RUN cur v ∈ aspectEvents reg GAspectType.BEGIN_RUN {} b) :
    v = b := by
  cases reg with
  | false => simp [aspectEvents] at hm
  | true =>
    simp only [aspectEvents, if_true, List.mem_singleton, Event.aspect.injEq] at hm
    exact hm.2.2

theorem LoopTrace.veto_last {reg : Bool} {todo : Nat} {status : CStatus} {d : List Event}
    {r : Outcome} (h : LoopTrace reg todo status d r) :
    ∀ cur v, Event.aspect GAspectType.BEGIN_RUN cur v ∈ d → v.isOK = false →
      ∃ pre, d = pre ++ [Event.aspect GAspectType.BEGIN_RUN cur v] ∧ r = Outcome.returned v := by
  induction h with
  | finished status =>
    intro cur v hm _
    simp at hm
  | vetoed todo status v0 hreg hv0 =>
    intro cur v hm _
    simp only [List.mem_singleton, Event.aspect.injEq] at hm
    obtain ⟨_, h2, h3⟩ := hm
    subst h2 h3
    exact ⟨[], rfl, rfl⟩
  | threw todo status b d ex hb hd =>
    intro cur v hm hv
    rw [List.mem_append] at hm
    rcases hm with hm | hm
    · have := aspectEvents_begin_mem reg b cur v hm
      subst this
      rw [hb] at hv
      cases hv
    · exact absurd hm (hd.facts.2.2.2.2.2.2.1 _ cur v)
  | next todo status b st f d rest r hb hd hrest ih =>
    intro cur v hm hv
    rw [List.mem_append, List.mem_append, List.mem_append] at hm
    rcases hm with hm | hm | hm | hm
    · have := aspectEvents_begin_mem reg b cur v hm
      subst this
      rw [hb] at hv
      cases hv
    · exact absurd hm (hd.facts.2.2.2.2.2.2.1 _ cur v)
    · exact absurd hm ((aspectEvents_finish_facts reg st f none).2.2.2.2.2.2 cur v)
    · obtain ⟨pre, hpre, hr⟩ := ih cur v hm hv
      refine ⟨aspectEvents reg GAspectType.BEGIN_RUN {} b ++
        (d ++ (aspectEvents reg GAspectType.FINISH_RUN st f ++ pre)), ?_, hr⟩
      rw [hpre]
      simp only [List.append_assoc]

theorem LoopTrace.throw_facts {reg : Bool} {todo : Nat} {status : CStatus} {d : List Event}
    {r : Outcome} (h : LoopTrace reg todo status d r) :
    (∀ ex, r = Outcome.thrown ex →
      (∃ pre, d = pre ++ [Event.run (Outcome.thrown ex)] ∧
        runThrows pre = 0 ∧ holdThrows pre = 0 ∧ pre.countP Event.isCrashed = 0) ∨
      (∃ pre, d = pre ++ [Event.holdThrew ex] ∧
        runThrows pre = 0 ∧ holdThrows pre = 0 ∧ pre.countP Event.isCrashed = 0)) ∧
    (∀ st, r = Outcome.returned st →
      runThrows d = 0 ∧ holdThrows d = 0 ∧ d.countP Event.isCrashed = 0) := by
  induction h with
  | finished status =>
    exact ⟨fun ex hex => (by cases hex), fun st _ => ⟨rfl, rfl, rfl⟩⟩
  | vetoed todo status v0 hreg hv0 =>
    refine ⟨fun ex hex => (by cases hex), fun st _ => ?_⟩
    simp [runThrows, holdThrows, Event.isRunThrow, Event.isHoldThrow, Event.isCrashed]
  | threw todo status b d ex hb hd =>
    refine ⟨fun ex2 hex => ?_, fun st hst => (by cases hst)⟩
    cases hex
    have hB := aspectEvents_clean reg GAspectType.BEGIN_RUN {} b
    rcases hd.facts.2.2.2.2.2.2.2.2 ex rfl with ⟨pre, hpre, hc⟩ | ⟨pre, hpre, hc⟩
    · refine Or.inl ⟨aspectEvents reg GAspectType.BEGIN_RUN {} b ++ pre, ?_,
        clean_append _ _ hB hc⟩
      rw [hpre, List.append_assoc]
    · refine Or.inr ⟨aspectEvents reg GAspectType.BEGIN_RUN {} b ++ pre, ?_,
        clean_append _ _ hB hc⟩
      rw [hpre, List.append_assoc]
  | next todo status b st f d rest r hb hd hrest ih =>
    have hB := aspectEvents_clean reg GAspectType.BEGIN_RUN {} b
    have hF := aspectEvents_clean reg GAspectType.FINISH_RUN st f
    have hf := hd.facts
    have hD : runThrows d = 0 ∧ holdThrows d = 0 ∧ d.countP Event.isCrashed = 0 :=
      ⟨(hf.2.2.2.2.2.2.2.1 st rfl).1, (hf.2.2.2.2.2.2.2.1 st rfl).2, hf.2.2.2.2.2.1⟩
    refine ⟨fun ex hex => ?_, fun st2 hst => ?_⟩
    · rcases ih.1 ex hex with ⟨pre, hpre, hc⟩ | ⟨pre, hpre, hc⟩
      · refine Or.inl ⟨aspectEvents reg GAspectType.BEGIN_RUN {} b ++
          (d ++ (aspectEvents reg GAspectType.FINISH_RUN st f ++ pre)), ?_,
          clean_append _ _ hB (clean_append _ _ hD (clean_append _ _ hF hc))⟩
        rw [hpre]
        simp only [List.append_assoc]
      · refine Or.inr ⟨aspectEvents reg GAspectType.BEGIN_RUN {} b ++
          (d ++ (aspectEvents reg GAspectType.FINISH_RUN st f ++ pre)), ?_,
          clean_append _ _ hB (clean_append _ _ hD (clean_append _ _ hF hc))⟩
        rw [hpre]
        simp only [List.append_assoc]
    · exact clean_append _ _ hB (clean_append _ _ hD (clean_append _ _ hF (ih.2 st2 hst)))

theorem LoopTrace.runCalls_pos {reg : Bool} {todo : Nat} {status : CStatus} {d : List Event}
    {r : Outcome} (h : LoopTrace reg todo status d r) (hpos : 1 ≤ todo)
    (hnv : ∀ cur v, Event.aspect GAspectType.BEGIN_RUN cur v ∈ d → v.isOK = true) :
    1 ≤ runCalls d := by
  cases h with
  | finished status => omega
  | vetoed todo status v0 hreg hv0 =>
    have := hnv {} v0 (List.mem_singleton_self _)
    rw [hv0] at this
    cases this
  | threw todo status b d ex hb hd =>
    have := hd.facts.2.2.1
    simp only [runCalls, List.countP_append] at this ⊢
    omega
  | next todo status b st f d rest r hb hd hrest =>
    have := hd.facts.2.2.1
    simp only [runCalls, List.countP_append] at this ⊢
    omega

/-! ## Theorems: hooks, exceptions and the phase body -/

namespace GElement

theorem doAspect_vetoed {W : Type} (hk : Hooks W) (e : GElement) (t : GAspectType)
    (cur : CStatus) (s : Sys W) (hv : (doAspect hk e t cur s).1.isOK = false) :
    (doAspect hk e t cur s).2.trace =
      s.trace ++ [Event.aspect t cur (doAspect hk e t cur s).1] := by
  have h := doAspect_trace hk e t cur s
  rw [h.1, h.2 hv]
  rfl

theorem oncePhase_vetoed {W : Type} (hk : Hooks W) (e : GElement) (bt ft : GAspectType)
    (method : W → Outcome × W) (mk : Outcome → Event) (s : Sys W)
    (hv : (doAspect hk e bt {} s).1.isOK = false) :
    oncePhase hk e bt ft method mk s =
      (Outcome.returned (doAspect hk e bt {} s).1, (doAspect hk e bt {} s).2) := by
  unfold oncePhase
  simp [CGRAPH_FUNCTION_CHECK_STATUS, hv]

theorem oncePhase_thrown {W : Type} (hk : Hooks W) (e : GElement) (bt ft : GAspectType)
    (method : W → Outcome × W) (mk : Outcome → Event) (s : Sys W) (ex : CException)
    (hb : (doAspect hk e bt {} s).1.isOK = true)
    (hm : (method (doAspect hk e bt {} s).2.world).1 = Outcome.thrown ex) :
    oncePhase hk e bt ft method mk s =
      (Outcome.thrown ex,
        ⟨(method (doAspect hk e bt {} s).2.world).2,
          (doAspect hk e bt {} s).2.trace ++ [mk (Outcome.thrown ex)]⟩) := by
  unfold oncePhase
  simp [CGRAPH_FUNCTION_CHECK_STATUS, hb, hm]

/-- Every completed RUN phase that started on an empty trace has a trace of the loop
shape, followed by the call of `crashed` when the body threw. -/
theorem fatProcessor_run_shape {W : Type} (hk : Hooks W) (e : GElement) (fuel : Nat) (w : W)
    (r : Outcome) (s1 : Sys W)
    (h : fatProcessor hk e CFunctionType.RUN fuel ⟨w, []⟩ = some (r, s1)) :
    ∃ d o, LoopTrace (hasAspects e) e.loop_ {} d o ∧
      ((∃ st, o = Outcome.returned st ∧ r = Outcome.returned st ∧ s1.trace = d) ∨
        (∃ ex w1, o = Outcome.thrown ex ∧ r = (hk.crashed ex w1).1 ∧
          s1.trace = d ++ [Event.crashed ex r])) := by
  unfold fatProcessor fatProcessorTry at h
  simp only at h
  cases hl : runLoop hk e fuel e.loop_ {} ⟨w, []⟩ with
  | none => simp [hl] at h
  | some p =>
    rcases p with ⟨o, s2⟩
    obtain ⟨d, hd, hlt⟩ := runLoop_trace hk e fuel e.loop_ {} ⟨w, []⟩ o s2 hl
    simp only [List.nil_append] at hd
    rw [hl] at h
    cases o with
    | returned st =>
      simp only [Option.some.injEq, Prod.mk.injEq] at h
      obtain ⟨h1, h2⟩ := h
      subst h1 h2
      exact ⟨d, _, hlt, Or.inl ⟨st, rfl, rfl, hd⟩⟩
    | thrown ex =>
      simp only [Option.some.injEq, Prod.mk.injEq] at h
      obtain ⟨h1, h2⟩ := h
      subst h1 h2
      refine ⟨d, _, hlt, Or.inr ⟨ex, s2.world, rfl, rfl, ?_⟩⟩
      simp only [hd]

/-- C11: for each phase P of INIT, RUN, DESTROY, when the BEGIN_P hook group returns
a status that is not OK, fatProcessor(P) returns that status and the only call it has
added to the trace is that hook group: the user method is not invoked. In RUN this
holds for a veto in the first iteration (any loop >= 1, no call of run at all) and,
in any completed RUN phase, for a veto in whatever iteration: the vetoing hook group
is the last call of the phase, so no later iteration is attempted. -/
theorem begin_veto_skips_body {W : Type} (hk : Hooks W) (e : GElement) (fuel : Nat) (s : Sys W) :
    ((doAspect hk e GAspectType.BEGIN_INIT {} s).1.isOK = false →
      fatProcessor hk e CFunctionType.INIT fuel s =
        some (Outcome.returned (doAspect hk e GAspectType.BEGIN_INIT {} s).1,
          (doAspect hk e GAspectType.BEGIN_INIT {} s).2) ∧
      (doAspect hk e GAspectType.BEGIN_INIT {} s).2.trace =
        s.trace ++ [Event.aspect GAspectType.BEGIN_INIT {}
          (doAspect hk e GAspectType.BEGIN_INIT {} s).1]) ∧
    ((doAspect hk e GAspectType.BEGIN_DESTROY {} s).1.isOK = false →
      fatProcessor hk e CFunctionType.DESTROY fuel s =
        some (Outcome.returned (doAspect hk e GAspectType.BEGIN_DESTROY {} s).1,
          (doAspect hk e GAspectType.BEGIN_DESTROY {} s).2) ∧
      (doAspect hk e GAspectType.BEGIN_DESTROY {} s).2.trace =
        s.trace ++ [Event.aspect GAspectType.BEGIN_DESTROY {}
          (doAspect hk e GAspectType.BEGIN_DESTROY {} s).1]) ∧
    ((doAspect hk e GAspectType.BEGIN_RUN {} s).1.isOK = false → 1 ≤ e.loop_ →
      fatProcessor hk e CFunctionType.RUN fuel s =
        some (Outcome.returned (doAspect hk e GAspectType.BEGIN_RUN {} s).1,
          (doAspect hk e GAspectType.BEGIN_RUN {} s).2) ∧
      (doAspect hk e GAspectType.BEGIN_RUN {} s).2.trace =
        s.trace ++ [Event.aspect GAspectType.BEGIN_RUN {}
          (doAspect hk e GAspectType.BEGIN_RUN {} s).1] ∧
      runCalls (doAspect hk e GAspectType.BEGIN_RUN {} s).2.trace = runCalls s.trace) ∧
    (∀ (w : W) (r : Outcome) (s1 : Sys W) (cur v : CStatus),
      fatProcessor hk e CFunctionType.RUN fuel ⟨w, []⟩ = some (r, s1) →
      Event.aspect GAspectType.BEGIN_RUN cur v ∈ s1.trace → v.isOK = false →
      ∃ pre, s1.trace = pre ++ [Event.aspect GAspectType.BEGIN_RUN cur v] ∧
        r = Outcome.returned v) := by
  refine ⟨?_, ?_, ?_, ?_⟩
  · intro hv
    refine ⟨?_, doAspect_vetoed hk e _ _ s hv⟩
    unfold fatProcessor fatProcessorTry
    simp only [oncePhase_vetoed hk e _ _ _ _ s hv]
  · intro hv
    refine ⟨?_, doAspect_vetoed hk e _ _ s hv⟩
    unfold fatProcessor fatProcessorTry
    simp only [oncePhase_vetoed hk e _ _ _ _ s hv]
  · intro hv hloop
    refine ⟨?_, doAspect_vetoed hk e _ _ s hv, (doAspect_counts hk e _ _ s).1⟩
    obtain ⟨k, hk1⟩ : ∃ k, e.loop_ = k + 1 := ⟨e.loop_ - 1, by omega⟩
    unfold fatProcessor fatProcessorTry
    simp only [hk1, runLoop, CGRAPH_FUNCTION_CHECK_STATUS, hv, Bool.not_false, if_true]
  · intro w r s1 cur v h hm hv
    obtain ⟨d, o, hlt, hcase⟩ := fatProcessor_run_shape hk e fuel w r s1 h
    rcases hcase with ⟨st, ho, hr, ht⟩ | ⟨ex, w1, ho, hr, ht⟩
    · rw [ht] at hm ⊢
      obtain ⟨pre, hpre, hres⟩ := hlt.veto_last cur v hm hv
      refine ⟨pre, hpre, ?_⟩
      rw [hr, ← ho, hres]
    · rw [ht, List.mem_append] at hm
      rcases hm with hm | hm
      · obtain ⟨pre, hpre, hres⟩ := hlt.veto_last cur v hm hv
        rw [ho] at hres
        cases hres
      · simp at hm

/-- Witness of C11: the BEGIN_RUN hook group returns code 9 on its first invocation;
with loop = 3 and one registered aspect the phase returns code 9 and run is not
called. -/
theorem begin_veto_skips_body_witness :
    ((doAspect vetoFirstHooks (elementWithAspect 3) GAspectType.BEGIN_RUN {} ⟨0, []⟩).1.isOK = false ∧
      1 ≤ (elementWithAspect 3).loop_) ∧
    (fatProcessor vetoFirstHooks (elementWithAspect 3) CFunctionType.RUN 1 ⟨0, []⟩ =
        some (Outcome.returned
          (doAspect vetoFirstHooks (elementWithAspect 3) GAspectType.BEGIN_RUN {} ⟨0, []⟩).1,
          (doAspect vetoFirstHooks (elementWithAspect 3) GAspectType.BEGIN_RUN {} ⟨0, []⟩).2) ∧
      (doAspect vetoFirstHooks (elementWithAspect 3) GAspectType.BEGIN_RUN {} ⟨0, []⟩).2.trace =
        ([] : List Event) ++ [Event.aspect GAspectType.BEGIN_RUN {}
          (doAspect vetoFirstHooks (elementWithAspect 3) GAspectType.BEGIN_RUN {} ⟨0, []⟩).1] ∧
      runCalls (doAspect vetoFirstHooks (elementWithAspect 3) GAspectType.BEGIN_RUN {}
        ⟨0, []⟩).2.trace = runCalls ([] : List Event)) ∧
    fatProcessor vetoFirstHooks (elementWithAspect 3) CFunctionType.RUN 1 ⟨0, []⟩ =
      some (Outcome.returned ⟨9, "veto"⟩,
        ⟨1, [Event.aspect GAspectType.BEGIN_RUN {} ⟨9, "veto"⟩]⟩) :=
  ⟨⟨by decide, by decide⟩,
    (begin_veto_skips_body vetoFirstHooks (elementWithAspect 3) 1 ⟨0, []⟩).2.2.1
      (by decide) (by decide),
    by decide⟩

/-- One pass of the hold loop whose `run` throws. -/
theorem runHold_run_throws {W : Type} (hk : Hooks W) (fuel : Nat) (s : Sys W) (ex : CException)
    (hm : (hk.run s.world).1 = Outcome.thrown ex) :
    runHold hk (fuel + 1) s =
      some (Outcome.thrown ex,
        ⟨(hk.run s.world).2, s.trace ++ [Event.run (Outcome.thrown ex)]⟩) := by
  unfold runHold
  rcases hrun : hk.run s.world with ⟨o, w⟩
  rw [hrun] at hm
  simp only at hm
  subst hm
  rfl

/-- One pass of the hold loop whose `run` returns OK and whose `isHold` throws. -/
theorem runHold_hold_throws {W : Type} (hk : Hooks W) (fuel : Nat) (s : Sys W) (st : CStatus)
    (ex : CException)
    (hm : (hk.run s.world).1 = Outcome.returned st) (hst : st.isOK = true)
    (hh : (hk.isHold (hk.run s.world).2).1 = HoldOutcome.thrown ex) :
    runHold hk (fuel + 1) s =
      some (Outcome.thrown ex,
        ⟨(hk.isHold (hk.run s.world).2).2,
          s.trace ++ [Event.run (Outcome.returned st), Event.holdThrew ex]⟩) := by
  unfold runHold
  rcases hrun : hk.run s.world with ⟨o, w⟩
  rw [hrun] at hm hh
  simp only at hm hh
  subst hm
  rcases hhold : hk.isHold w with ⟨ho, w2⟩
  rw [hhold] at hh
  simp only at hh
  subst hh
  simp [hst, hhold]

/-- A RUN phase whose first iteration leaves the hold loop by an exception ends with the
call of `crashed`. -/
theorem fatProcessor_run_first_throw {W : Type} (hk : Hooks W) (e : GElement) (fuel : Nat)
    (s : Sys W) (ex : CException) (s2 : Sys W) (hloop : 1 ≤ e.loop_)
    (hb : (doAspect hk e GAspectType.BEGIN_RUN {} s).1.isOK = true)
    (h : runHold hk fuel (doAspect hk e GAspectType.BEGIN_RUN {} s).2 =
      some (Outcome.thrown ex, s2)) :
    fatProcessor hk e CFunctionType.RUN fuel s =
      some ((hk.crashed ex s2.world).1,
        ⟨(hk.crashed ex s2.world).2,
          s2.trace ++ [Event.crashed ex (hk.crashed ex s2.world).1]⟩) := by
  obtain ⟨k, hk1⟩ : ∃ k, e.loop_ = k + 1 := ⟨e.loop_ - 1, by omega⟩
  unfold fatProcessor fatProcessorTry
  simp only [hk1, runLoop, CGRAPH_FUNCTION_CHECK_STATUS, hb, Bool.not_true, Bool.false_eq_true,
    if_false, h]

/-- A completed RUN phase either returned a status without any exception, or ends with
the throwing call, of `run` or of `isHold`, followed by the call of `crashed`, whose
result is the result of the phase. -/
theorem fatProcessor_run_throw_shape {W : Type} (hk : Hooks W) (e : GElement) (fuel : Nat)
    (w : W) (r : Outcome) (s1 : Sys W)
    (h : fatProcessor hk e CFunctionType.RUN fuel ⟨w, []⟩ = some (r, s1)) :
    ((∃ st, r = Outcome.returned st) ∧ runThrows s1.trace = 0 ∧ holdThrows s1.trace = 0 ∧
      s1.trace.countP Event.isCrashed = 0) ∨
    (∃ ex pre w1 ev, (ev = Event.run (Outcome.thrown ex) ∨ ev = Event.holdThrew ex) ∧
      s1.trace = pre ++ [ev, Event.crashed ex r] ∧ r = (hk.crashed ex w1).1 ∧
      runThrows pre = 0 ∧ holdThrows pre = 0 ∧ pre.countP Event.isCrashed = 0) := by
  obtain ⟨d, o, hlt, hcase⟩ := fatProcessor_run_shape hk e fuel w r s1 h
  rcases hcase with ⟨st, ho, hr, ht⟩ | ⟨ex, w1, ho, hr, ht⟩
  · left
    rw [ht]
    exact ⟨⟨st, hr⟩, hlt.throw_facts.2 st ho⟩
  · right
    rcases hlt.throw_facts.1 ex ho with ⟨pre, hpre, hc⟩ | ⟨pre, hpre, hc⟩
    · refine ⟨ex, pre, w1, _, Or.inl rfl, ?_, hr, hc⟩
      rw [ht, hpre]
      simp
    · refine ⟨ex, pre, w1, _, Or.inr rfl, ?_, hr, hc⟩
      rw [ht, hpre]
      simp

/-- C13: when the user method throws inside fatProcessor, the exception is handed to
crashed and fatProcessor yields exactly what crashed yields. For INIT and DESTROY after
a passing BEGIN hook group the phase is the BEGIN group, the throwing method and
crashed. For RUN with loop >= 1, a first call of run that throws after a passing
BEGIN_RUN group gives the BEGIN group, the throwing call and crashed, and the same holds
when run returned OK and isHold throws; in any completed RUN phase in which run threw,
in whatever iteration, the throwing call of run and the call of crashed are the last two
calls and the phase yields what crashed yields; and the RUN phase completes whenever
every hold loop finishes. The default crashed throws an exception with the same text, so
with it the exception leaves fatProcessor. -/
theorem exception_goes_to_crashed {W : Type} (hk : Hooks W) (e : GElement) (fuel : Nat)
    (s : Sys W) (ex : CException) :
    ((doAspect hk e GAspectType.BEGIN_INIT {} s).1.isOK = true →
      (hk.init (doAspect hk e GAspectType.BEGIN_INIT {} s).2.world).1 = Outcome.thrown ex →
      ∃ w1 w2, fatProcessor hk e CFunctionType.INIT fuel s =
        some ((hk.crashed ex w1).1,
          ⟨w2, (doAspect hk e GAspectType.BEGIN_INIT {} s).2.trace ++
            [Event.init (Outcome.thrown ex), Event.crashed ex (hk.crashed ex w1).1]⟩)) ∧
    ((doAspect hk e GAspectType.BEGIN_DESTROY {} s).1.isOK = true →
      (hk.destroy (doAspect hk e GAspectType.BEGIN_DESTROY {} s).2.world).1 = Outcome.thrown ex →
      ∃ w1 w2, fatProcessor hk e CFunctionType.DESTROY fuel s =
        some ((hk.crashed ex w1).1,
          ⟨w2, (doAspect hk e GAspectType.BEGIN_DESTROY {} s).2.trace ++
            [Event.destroy (Outcome.thrown ex), Event.crashed ex (hk.crashed ex w1).1]⟩)) ∧
    (∀ (w : W) (r : Outcome) (s1 : Sys W),
      fatProcessor hk e CFunctionType.RUN fuel ⟨w, []⟩ = some (r, s1) →
      Event.run (Outcome.thrown ex) ∈ s1.trace →
      ∃ pre w1, s1.trace = pre ++ [Event.run (Outcome.thrown ex), Event.crashed ex r] ∧
        r = (hk.crashed ex w1).1 ∧ runThrows pre = 0 ∧ pre.countP Event.isCrashed = 0) ∧
    (∀ w : W, (GElement.crashed ex w).1 = Outcome.thrown ex) ∧
    (hk.crashed = GElement.crashed → ∀ (w : W) (r : Outcome) (s1 : Sys W),
      fatProcessor hk e CFunctionType.RUN fuel ⟨w, []⟩ = some (r, s1) →
      Event.run (Outcome.thrown ex) ∈ s1.trace → r = Outcome.thrown ex) ∧
    (1 ≤ e.loop_ → (doAspect hk e GAspectType.BEGIN_RUN {} s).1.isOK = true →
      (hk.run (doAspect hk e GAspectType.BEGIN_RUN {} s).2.world).1 = Outcome.thrown ex →
      ∃ w1 w2, fatProcessor hk e CFunctionType.RUN (fuel + 1) s =
        some ((hk.crashed ex w1).1,
          ⟨w2, (doAspect hk e GAspectType.BEGIN_RUN {} s).2.trace ++
            [Event.run (Outcome.thrown ex), Event.crashed ex (hk.crashed ex w1).1]⟩)) ∧
    (∀ st, 1 ≤ e.loop_ → (doAspect hk e GAspectType.BEGIN_RUN {} s).1.isOK = true →
      (hk.run (doAspect hk e GAspectType.BEGIN_RUN {} s).2.world).1 = Outcome.returned st →
      st.isOK = true →
      (hk.isHold (hk.run (doAspect hk e GAspectType.BEGIN_RUN {} s).2.world).2).1 =
        HoldOutcome.thrown ex →
      ∃ w1 w2, fatProcessor hk e CFunctionType.RUN (fuel + 1) s =
        some ((hk.crashed ex w1).1,
          ⟨w2, (doAspect hk e GAspectType.BEGIN_RUN {} s).2.trace ++
            [Event.run (Outcome.returned st), Event.holdThrew ex,
              Event.crashed ex (hk.crashed ex w1).1]⟩)) ∧
    ((∀ s2, runHold hk fuel s2 ≠ none) →
      ∃ r s1, fatProcessor hk e CFunctionType.RUN fuel s = some (r, s1)) := by
  have hrun : ∀ (w : W) (r : Outcome) (s1 : Sys W),
      fatProcessor hk e CFunctionType.RUN fuel ⟨w, []⟩ = some (r, s1) →
      Event.run (Outcome.thrown ex) ∈ s1.trace →
      ∃ pre w1, s1.trace = pre ++ [Event.run (Outcome.thrown ex), Event.crashed ex r] ∧
        r = (hk.crashed ex w1).1 ∧ runThrows pre = 0 ∧ pre.countP Event.isCrashed = 0 := by
    intro w r s1 h hm
    have hthrow : Event.isRunThrow (Event.run (Outcome.thrown ex)) = true := rfl
    rcases fatProcessor_run_throw_shape hk e fuel w r s1 h with
      ⟨_, h0, _, _⟩ | ⟨ex2, pre, w1, ev, hev, ht, hr, hp1, _, hp3⟩
    · unfold runThrows at h0
      rw [List.countP_eq_zero] at h0
      exact absurd hthrow (h0 _ hm)
    · rw [ht] at hm
      simp only [List.mem_append, List.mem_cons, List.mem_singleton, List.not_mem_nil,
        or_false] at hm
      rcases hm with hm | hm | hm
      · unfold runThrows at hp1
        rw [List.countP_eq_zero] at hp1
        exact absurd hthrow (hp1 _ hm)
      · rcases hev with hev | hev
        · rw [hev] at hm ht
          cases hm
          exact ⟨pre, w1, ht, hr, hp1, hp3⟩
        · rw [hev] at hm
          cases hm
      · cases hm
  refine ⟨?_, ?_, hrun, fun _ => rfl, ?_, ?_, ?_, ?_⟩
  · intro hb hm
    refine ⟨(hk.init (doAspect hk e GAspectType.BEGIN_INIT {} s).2.world).2,
      (hk.crashed ex (hk.init (doAspect hk e GAspectType.BEGIN_INIT {} s).2.world).2).2, ?_⟩
    unfold fatProcessor fatProcessorTry
    simp only [oncePhase_thrown hk e _ _ _ _ s ex hb hm, List.append_assoc, List.singleton_append]
  · intro hb hm
    refine ⟨(hk.destroy (doAspect hk e GAspectType.BEGIN_DESTROY {} s).2.world).2,
      (hk.crashed ex (hk.destroy (doAspect hk e GAspectType.BEGIN_DESTROY {} s).2.world).2).2, ?_⟩
    unfold fatProcessor fatProcessorTry
    simp only [oncePhase_thrown hk e _ _ _ _ s ex hb hm, List.append_assoc, List.singleton_append]
  · intro hdef w r s1 h hm
    obtain ⟨pre, w1, _, hr, _, _⟩ := hrun w r s1 h hm
    rw [hr, hdef]
    rfl
  · intro hloop hb hm
    refine ⟨(hk.run (doAspect hk e GAspectType.BEGIN_RUN {} s).2.world).2,
      (hk.crashed ex (hk.run (doAspect hk e GAspectType.BEGIN_RUN {} s).2.world).2).2, ?_⟩
    rw [fatProcessor_run_first_throw hk e (fuel + 1) s ex _ hloop hb
      (runHold_run_throws hk fuel _ ex hm)]
    simp
  · intro st hloop hb hm hst hh
    refine ⟨(hk.isHold (hk.run (doAspect hk e GAspectType.BEGIN_RUN {} s).2.world).2).2,
      (hk.crashed ex
        (hk.isHold (hk.run (doAspect hk e GAspectType.BEGIN_RUN {} s).2.world).2).2).2, ?_⟩
    rw [fatProcessor_run_first_throw hk e (fuel + 1) s ex _ hloop hb
      (runHold_hold_throws hk fuel _ st ex hm hst hh)]
    simp
  · intro hfin
    exact fatProcessor_run_returns hk e fuel hfin s

/-- Witness of C13: run throws and crashed is overridden to return code 11, so
fatProcessor(RUN) returns code 11, also through the first-call statement and with the
phase known to complete; with the default crashed the exception leaves fatProcessor. -/
theorem exception_goes_to_crashed_witness :
    (fatProcessor throwingBodyHooks (elementWithAspect 2) CFunctionType.RUN 1 ⟨(), []⟩ =
        some (Outcome.returned ⟨11, "boom"⟩,
          ⟨(), [Event.aspect GAspectType.BEGIN_RUN {} {}, Event.run (Outcome.thrown ⟨"boom"⟩),
            Event.crashed ⟨"boom"⟩ (Outcome.returned ⟨11, "boom"⟩)]⟩) ∧
      Event.run (Outcome.thrown ⟨"boom"⟩) ∈
        [Event.aspect GAspectType.BEGIN_RUN {} {}, Event.run (Outcome.thrown ⟨"boom"⟩),
          Event.crashed ⟨"boom"⟩ (Outcome.returned ⟨11, "boom"⟩)]) ∧
    (∃ pre w1, [Event.aspect GAspectType.BEGIN_RUN {} {}, Event.run (Outcome.thrown ⟨"boom"⟩),
          Event.crashed ⟨"boom"⟩ (Outcome.returned ⟨11, "boom"⟩)] =
        pre ++ [Event.run (Outcome.thrown ⟨"boom"⟩),
          Event.crashed ⟨"boom"⟩ (Outcome.returned ⟨11, "boom"⟩)] ∧
      Outcome.returned ⟨11, "boom"⟩ = (throwingBodyHooks.crashed ⟨"boom"⟩ w1).1 ∧
      runThrows pre = 0 ∧ pre.countP Event.isCrashed = 0) ∧
    fatProcessor throwingDefaultCrashHooks (elementWithAspect 2) CFunctionType.RUN 1 ⟨(), []⟩ =
      some (Outcome.thrown ⟨"boom"⟩,
        ⟨(), [Event.aspect GAspectType.BEGIN_RUN {} {}, Event.run (Outcome.thrown ⟨"boom"⟩),
          Event.crashed ⟨"boom"⟩ (Outcome.thrown ⟨"boom"⟩)]⟩) ∧
    fatProcessor throwingBodyHooks (elementWithAspect 2) CFunctionType.INIT 1 ⟨(), []⟩ =
      some (Outcome.returned ⟨11, "boom"⟩,
        ⟨(), [Event.aspect GAspectType.BEGIN_INIT {} {}, Event.init (Outcome.thrown ⟨"boom"⟩),
          Event.crashed ⟨"boom"⟩ (Outcome.returned ⟨11, "boom"⟩)]⟩) ∧
    (∃ w1 w2, fatProcessor throwingBodyHooks (elementWithAspect 2) CFunctionType.RUN (0 + 1)
        ⟨(), []⟩ =
      some ((throwingBodyHooks.crashed ⟨"boom"⟩ w1).1,
        ⟨w2, (doAspect throwingBodyHooks (elementWithAspect 2) GAspectType.BEGIN_RUN {}
            ⟨(), []⟩).2.trace ++
          [Event.run (Outcome.thrown ⟨"boom"⟩),
            Event.crashed ⟨"boom"⟩ (throwingBodyHooks.crashed ⟨"boom"⟩ w1).1]⟩)) ∧
    (∃ r s1, fatProcessor throwingBodyHooks (elementWithAspect 2) CFunctionType.RUN 1
      ⟨(), []⟩ = some (r, s1)) :=
  ⟨⟨by decide, by decide⟩,
    (exception_goes_to_crashed throwingBodyHooks (elementWithAspect 2) 1 ⟨(), []⟩ ⟨"boom"⟩).2.2.1
      () (Outcome.returned ⟨11, "boom"⟩)
      ⟨(), [Event.aspect GAspectType.BEGIN_RUN {} {}, Event.run (Outcome.thrown ⟨"boom"⟩),
        Event.crashed ⟨"boom"⟩ (Outcome.returned ⟨11, "boom"⟩)]⟩ (by decide) (by decide),
    by decide, by decide,
    (exception_goes_to_crashed throwingBodyHooks (elementWithAspect 2) 0 ⟨(), []⟩
      ⟨"boom"⟩).2.2.2.2.2.1 (by decide) (by decide) (by decide),
    (exception_goes_to_crashed throwingBodyHooks (elementWithAspect 2) 1 ⟨(), []⟩
      ⟨"boom"⟩).2.2.2.2.2.2.2
      (runHold_never_holding throwingBodyHooks 0
        (fun _ => by simp [throwingBodyHooks, GElement.isHold]))⟩

theorem setName_apply (h : Heap) (e : Nat) (name : String) (hinit : (h e).is_init_ = false)
    (x : Nat) :
    (setName h e name).1 = some e ∧
    (setName h e name).2 x =
      if x = e then
        { h e with
          name_ := if name = "" then (h e).session_ else name
          aspect_manager_ := (h e).aspect_manager_.map (fun m => { m with name := name }) }
      else h x := by
  unfold setName
  simp only [CGRAPH_ASSERT_INIT, hinit, ne_eq, not_true_eq_false, decide_False,
    Bool.false_eq_true, if_false]
  cases hm : (h e).aspect_manager_ with
  | none =>
    by_cases hx : x = e
    · subst hx
      simp [Heap.set, hm]
    · simp [Heap.set, hm, hx]
  | some m =>
    by_cases hx : x = e
    · subst hx
      simp [Heap.set, hm]
    · simp [Heap.set, hm, hx]

theorem setLoop_apply (h : Heap) (e : Nat) (loop : Nat) (hinit : (h e).is_init_ = false)
    (x : Nat) :
    (setLoop h e loop).1 = some e ∧
    (setLoop h e loop).2 x = if x = e then { h e with loop_ := loop } else h x := by
  unfold setLoop
  simp only [CGRAPH_ASSERT_INIT, hinit, ne_eq, not_true_eq_false, decide_False,
    Bool.false_eq_true, if_false, Heap.set, true_and]

theorem setLevel_apply (h : Heap) (e : Nat) (level : Int) (hinit : (h e).is_init_ = false)
    (x : Nat) :
    (setLevel h e level).1 = some e ∧
    (setLevel h e level).2 x = if x = e then { h e with level_ := level } else h x := by
  unfold setLevel
  simp only [CGRAPH_ASSERT_INIT, hinit, ne_eq, not_true_eq_false, decide_False,
    Bool.false_eq_true, if_false, Heap.set, true_and]

theorem setters_initialized (h : Heap) (e : Nat) (name : String) (loop : Nat) (level : Int)
    (hinit : (h e).is_init_ = true) :
    setName h e name = (none, h) ∧ setLoop h e loop = (none, h) ∧
      setLevel h e level = (none, h) := by
  unfold setName setLoop setLevel
  simp [CGRAPH_ASSERT_INIT, hinit]

/-- The heap in which `setElementInfo` calls `addDependGElements`: the configuration is
stored in the element at `e`, nothing else differs from `h`. -/
theorem setElementInfo_apply (h : Heap) (e : Nat) (deps : Finset Nat) (name : String)
    (loop : Nat) (level : Int) (pm : Option Nat) (tp : Nat)
    (hinit : (h e).is_init_ = false) :
    ∃ h5 : Heap,
      setElementInfo h e deps name loop level pm (some tp) =
        some (addDependGElements h5 e deps) ∧
      ∀ x, h5 x =
        if x = e then
          { h e with
            name_ := if name = "" then (h e).session_ else name
            aspect_manager_ := (h e).aspect_manager_.map (fun m => { m with name := name })
            loop_ := loop
            level_ := level
            param_manager_ := pm
            thread_pool_ := some tp }
        else h x := by
  have hn := setName_apply h e name hinit
  rcases hsn : setName h e name with ⟨p1, h1⟩
  rw [hsn] at hn
  simp only at hn
  have hp1 : p1 = some e := (hn e).1
  subst hp1
  have h1e : (h1 e).is_init_ = false := by
    rw [(hn e).2]
    simpa using hinit
  have hl := setLoop_apply h1 e loop h1e
  rcases hsl : setLoop h1 e loop with ⟨p2, h2⟩
  rw [hsl] at hl
  simp only at hl
  have hp2 : p2 = some e := (hl e).1
  subst hp2
  have h2e : (h2 e).is_init_ = false := by
    rw [(hl e).2]
    simpa using h1e
  have hv := setLevel_apply h2 e level h2e
  refine ⟨(((setLevel h2 e level).2).set e
      { (setLevel h2 e level).2 e with param_manager_ := pm }).set e
      { (((setLevel h2 e level).2).set e
          { (setLevel h2 e level).2 e with param_manager_ := pm }) e with
        thread_pool_ := some tp }, ?_, ?_⟩
  · unfold setElementInfo
    simp only [CGRAPH_ASSERT_NOT_NULL, Option.isNone_some, Bool.false_eq_true, if_false,
      CGRAPH_ASSERT_INIT, hinit, ne_eq, not_true_eq_false, decide_False, hsn, hsl]
  · intro x
    by_cases hx : x = e
    · subst hx
      simp only [Heap.set, if_true, (hv x).2, (hl x).2, (hn x).2]
    · simp only [Heap.set, hx, if_false, (hv x).2, (hl x).2, (hn x).2]

theorem runLoop_runs_once {W : Type} (hk : Hooks W) (e : GElement) (fuel k : Nat)
    (status : CStatus) (s : Sys W) (r : Outcome) (s1 : Sys W)
    (h : runLoop hk e fuel (k + 1) status s = some (r, s1))
    (hb : (doAspect hk e GAspectType.BEGIN_RUN {} s).1.isOK = true) :
    runCalls s.trace + 1 ≤ runCalls s1.trace := by
  unfold runLoop at h
  simp only [CGRAPH_FUNCTION_CHECK_STATUS, hb, Bool.not_true, Bool.false_eq_true, if_false] at h
  have hbc := (doAspect_counts hk e GAspectType.BEGIN_RUN {} s).1
  cases hrh : runHold hk fuel (doAspect hk e GAspectType.BEGIN_RUN {} s).2 with
  | none => simp [hrh] at h
  | some p =>
    rcases p with ⟨o, s2⟩
    obtain ⟨d, hd, ht⟩ := runHold_trace hk fuel _ o s2 hrh
    have hpos := ht.facts.2.2.1
    have hs2 : runCalls (doAspect hk e GAspectType.BEGIN_RUN {} s).2.trace + 1 ≤
        runCalls s2.trace := by
      rw [hd]
      simp only [runCalls, List.countP_append] at hpos ⊢
      omega
    rw [hrh] at h
    cases o with
    | thrown ex =>
      simp only [Option.some.injEq, Prod.mk.injEq] at h
      obtain ⟨_, h2⟩ := h
      subst h2
      omega
    | returned st =>
      simp only at h
      obtain ⟨rest, hrest, _⟩ := runLoop_trace hk e fuel k st _ r s1 h
      have hfc := (doAspect_counts hk e GAspectType.FINISH_RUN st s2).1
      have : runCalls (doAspect hk e GAspectType.FINISH_RUN st s2).2.trace ≤ runCalls s1.trace := by
        rw [hrest]
        simp [runCalls, List.countP_append]
      omega

/-- C14, the claim refuted on the code: setLoop(0) on a fresh element returns the
element and stores 0; setElementInfo with loop = 0 and a non-null pool returns OK and
stores 0; and fatProcessor(RUN) on an element with loop 0 returns OK without calling
run. -/
theorem zero_loop_is_stored :
    (setLoop Heap.fresh 0 0).1 = some 0 ∧ ((setLoop Heap.fresh 0 0).2 0).loop_ = 0 ∧
    (setElementInfo Heap.fresh 0 ∅ "a" 0 0 none (some 7)).map
      (fun r => (r.1.isOK, (r.2 0).loop_)) = some (true, 0) ∧
    fatProcessor plainHooks ((setLoop Heap.fresh 0 0).2 0) CFunctionType.RUN 1 ⟨(), []⟩ =
      some (Outcome.returned {}, ⟨(), []⟩) := by
  refine ⟨?_, ?_, ?_, ?_⟩ <;> decide

/-- C14 as amended: a zero loop is not rejected. On an element that is not yet
initialized setLoop(0) returns the element and stores 0 in loop_, and setElementInfo
with loop = 0 and a non-null pool returns OK and stores 0 in loop_. An element with
loop_ = 0 makes fatProcessor(RUN) return OK at once, calling neither a hook nor run.
For loop_ >= 1 a fatProcessor(RUN) that returns, and whose first BEGIN_RUN hook group
passed, has invoked run at least once. -/
theorem zero_loop_accepted (h : Heap) (e : Nat) (hinit : (h e).is_init_ = false) :
    (setLoop h e 0).1 = some e ∧ ((setLoop h e 0).2 e).loop_ = 0 ∧
    (∀ (deps : Finset Nat) (name : String) (level : Int) (pm : Option Nat) (tp : Nat),
      ∃ st h1, setElementInfo h e deps name 0 level pm (some tp) = some (st, h1) ∧
        st.isOK = true ∧ (h1 e).loop_ = 0) ∧
    (∀ (W : Type) (hk : Hooks W) (el : GElement) (fuel : Nat) (s : Sys W), el.loop_ = 0 →
      fatProcessor hk el CFunctionType.RUN fuel s = some (Outcome.returned {}, s)) ∧
    (∀ (W : Type) (hk : Hooks W) (el : GElement) (fuel : Nat) (w : W) (r : Outcome)
      (s1 : Sys W), 1 ≤ el.loop_ →
      fatProcessor hk el CFunctionType.RUN fuel ⟨w, []⟩ = some (r, s1) →
      (doAspect hk el GAspectType.BEGIN_RUN {} ⟨w, []⟩).1.isOK = true →
      1 ≤ runCalls s1.trace) := by
  refine ⟨(setLoop_apply h e 0 hinit e).1, ?_, ?_, ?_, ?_⟩
  · rw [(setLoop_apply h e 0 hinit e).2]
    simp
  · intro deps name level pm tp
    obtain ⟨h5, hs, hh5⟩ := setElementInfo_apply h e deps name 0 level pm tp hinit
    refine ⟨(addDependGElements h5 e deps).1, (addDependGElements h5 e deps).2, hs, rfl, ?_⟩
    rw [addDependGElements_apply, hh5 e]
    simp
  · intro W hk el fuel s h0
    unfold fatProcessor fatProcessorTry
    simp only [h0, runLoop]
  · intro W hk el fuel w r s1 hloop hfp hb
    obtain ⟨k, hk1⟩ : ∃ k, el.loop_ = k + 1 := ⟨el.loop_ - 1, by omega⟩
    unfold fatProcessor fatProcessorTry at hfp
    simp only [hk1] at hfp
    cases hl : runLoop hk el fuel (k + 1) {} ⟨w, []⟩ with
    | none => simp [hl] at hfp
    | some p =>
      rcases p with ⟨o, s2⟩
      have hone := runLoop_runs_once hk el fuel k {} ⟨w, []⟩ o s2 hl hb
      rw [hl] at hfp
      cases o with
      | returned st =>
        simp only [Option.some.injEq, Prod.mk.injEq] at hfp
        obtain ⟨_, h2⟩ := hfp
        subst h2
        omega
      | thrown ex =>
        simp only [Option.some.injEq, Prod.mk.injEq] at hfp
        obtain ⟨_, h2⟩ := hfp
        subst h2
        simp only [runCalls, List.countP_append] at hone ⊢
        omega

theorem zero_loop_accepted_witness :
    (Heap.fresh 0).is_init_ = false ∧
    ((setLoop Heap.fresh 0 0).1 = some 0 ∧ ((setLoop Heap.fresh 0 0).2 0).loop_ = 0) ∧
    ((1 ≤ (elementWithAspect 2).loop_ ∧
      (doAspect plainHooks (elementWithAspect 2) GAspectType.BEGIN_RUN {} ⟨(), []⟩).1.isOK = true) ∧
      1 ≤ runCalls [Event.aspect GAspectType.BEGIN_RUN {} {}, Event.run (Outcome.returned {}),
        Event.isHold false, Event.aspect GAspectType.FINISH_RUN {} {},
        Event.aspect GAspectType.BEGIN_RUN {} {}, Event.run (Outcome.returned {}),
        Event.isHold false, Event.aspect GAspectType.FINISH_RUN {} {}]) :=
  ⟨by decide,
    ⟨(zero_loop_accepted Heap.fresh 0 (by decide)).1,
      (zero_loop_accepted Heap.fresh 0 (by decide)).2.1⟩,
    ⟨by decide, by decide⟩,
    (zero_loop_accepted Heap.fresh 0 (by decide)).2.2.2.2 Unit plainHooks (elementWithAspect 2)
      1 () (Outcome.returned {})
      ⟨(), [Event.aspect GAspectType.BEGIN_RUN {} {}, Event.run (Outcome.returned {}),
        Event.isHold false, Event.aspect GAspectType.FINISH_RUN {} {},
        Event.aspect GAspectType.BEGIN_RUN {} {}, Event.run (Outcome.returned {}),
        Event.isHold false, Event.aspect GAspectType.FINISH_RUN {} {}]⟩
      (by decide) (by decide) (by decide)⟩

/-- C15, the code at the failing input: addDependGElements called on an element that
is already initialized returns OK and wires the edge, whereas setLoop on the same
element returns null and setElementInfo returns a status that is not OK and wires
nothing. -/
theorem addDependGElements_ignores_init :
    ((Heap.initialized 1) 1).is_init_ = true ∧
    (addDependGElements (Heap.initialized 1) 1 {0}).1.isOK = true ∧
    ((addDependGElements (Heap.initialized 1) 1 {0}).2 1).dependence_ = {0} ∧
    ((addDependGElements (Heap.initialized 1) 1 {0}).2 0).run_before_ = {1} ∧
    ((addDependGElements (Heap.initialized 1) 1 {0}).2 1).left_depend_ = 1 ∧
    ((Heap.initialized 1) 1).dependence_ = ∅ ∧ ((Heap.initialized 1) 0).run_before_ = ∅ ∧
    ((Heap.initialized 1) 1).left_depend_ = 0 ∧
    (setLoop (Heap.initialized 1) 1 3).1 = none ∧
    (setElementInfo (Heap.initialized 1) 1 {0} "n" 1 0 none (some 7)).map
      (fun r => (r.1.isOK, (r.2 1).dependence_, (r.2 0).run_before_)) =
        some (false, ∅, ∅) := by
  refine ⟨?_, ?_, ?_, ?_, ?_, ?_, ?_, ?_, ?_, ?_⟩ <;> decide

/-- C16: setElementInfo is all-or-nothing. With a null thread pool, or on an element
that is already initialized, it returns a status that is not OK and the heap is the
one it was given. Otherwise it returns the status of addDependGElements(deps) and the
heap is the one addDependGElements(deps) yields, with name (the session when the name
is empty), loop, level and both handles stored in the element (and the name handed to
its aspect manager, when it has one). -/
theorem setElementInfo_all_or_nothing (h : Heap) (e : Nat) (deps : Finset Nat) (name : String)
    (loop : Nat) (level : Int) (pm tp : Option Nat) :
    ((tp = none ∨ (h e).is_init_ = true) →
      ∃ st, setElementInfo h e deps name loop level pm tp = some (st, h) ∧ st.isOK = false) ∧
    (∀ p, tp = some p → (h e).is_init_ = false →
      ∃ h1, setElementInfo h e deps name loop level pm tp =
          some ((addDependGElements h e deps).1, h1) ∧
        ∀ x, h1 x =
          if x = e then
            { (addDependGElements h e deps).2 e with
              name_ := if name = "" then (h e).session_ else name
              aspect_manager_ := (h e).aspect_manager_.map (fun m => { m with name := name })
              loop_ := loop
              level_ := level
              param_manager_ := pm
              thread_pool_ := some p }
          else (addDependGElements h e deps).2 x) := by
  refine ⟨?_, ?_⟩
  · intro hc
    unfold setElementInfo
    cases tp with
    | none =>
      exact ⟨CGRAPH_RETURN_ERROR_STATUS "input is nullptr", by simp [CGRAPH_ASSERT_NOT_NULL],
        by decide⟩
    | some p =>
      rcases hc with hc | hc
      · cases hc
      · exact ⟨CGRAPH_RETURN_ERROR_STATUS "init status is not suitable",
          by simp [CGRAPH_ASSERT_NOT_NULL, CGRAPH_ASSERT_INIT, hc], by decide⟩
  · intro p hp hinit
    subst hp
    obtain ⟨h5, hs, hh5⟩ := setElementInfo_apply h e deps name loop level pm p hinit
    refine ⟨(addDependGElements h5 e deps).2, hs, ?_⟩
    intro x
    simp only [addDependGElements_apply, hh5]
    by_cases hx : x = e
    · subst hx
      simp
    · simp [hx]

theorem setElementInfo_all_or_nothing_witness :
    ((none : Option Nat) = none ∨ (Heap.fresh 1).is_init_ = true) ∧
    (∃ st, setElementInfo Heap.fresh 1 {0} "n" 2 3 (some 4) none = some (st, Heap.fresh) ∧
      st.isOK = false) ∧
    ((some 7 : Option Nat) = some 7 ∧ (Heap.fresh 1).is_init_ = false) ∧
    (setElementInfo Heap.fresh 1 {0} "n" 2 3 (some 4) (some 7)).map
      (fun r => (r.1.isOK, (r.2 1).name_, (r.2 1).loop_, (r.2 1).level_)) =
      some (true, "n", 2, 3) ∧
    (setElementInfo Heap.fresh 1 {0} "n" 2 3 (some 4) (some 7)).map
      (fun r => ((r.2 1).param_manager_, (r.2 1).thread_pool_)) = some (some 4, some 7) ∧
    (setElementInfo Heap.fresh 1 {0} "n" 2 3 (some 4) (some 7)).map
      (fun r => ((r.2 1).dependence_, (r.2 0).run_before_, (r.2 1).left_depend_)) =
      some ({0}, {1}, 1) :=
  ⟨Or.inl rfl,
    (setElementInfo_all_or_nothing Heap.fresh 1 {0} "n" 2 3 (some 4) none).1 (Or.inl rfl),
    ⟨rfl, by decide⟩, by decide, by decide, by decide⟩

/-- C17: name, loop and level are settable only while the element is not yet
initialized. On an initialized element setName, setLoop and setLevel return null and
leave the heap as it was. On an element that is not yet initialized each returns the
element itself, leaves every other element alone and stores its argument (setName
stores the session when given the empty string); every other data member of the
element keeps its value. The aspect-manager pointer is unchanged too: setName only
hands the name to the manager object, which is held by value here. -/
theorem setters_only_before_init (h : Heap) (e : Nat) (name : String) (loop : Nat)
    (level : Int) :
    ((h e).is_init_ = true →
      setName h e name = (none, h) ∧ setLoop h e loop = (none, h) ∧
        setLevel h e level = (none, h)) ∧
    ((h e).is_init_ = false →
      ((setName h e name).1 = some e ∧ (∀ x, x ≠ e → (setName h e name).2 x = h x) ∧
        (setName h e name).2 e =
          { h e with
            name_ := if name = "" then (h e).session_ else name
            aspect_manager_ := (h e).aspect_manager_.map (fun m => { m with name := name }) } ∧
        ((setName h e name).2 e).aspect_manager_.isSome = (h e).aspect_manager_.isSome) ∧
      ((setLoop h e loop).1 = some e ∧ (∀ x, x ≠ e → (setLoop h e loop).2 x = h x) ∧
        (setLoop h e loop).2 e = { h e with loop_ := loop }) ∧
      ((setLevel h e level).1 = some e ∧ (∀ x, x ≠ e → (setLevel h e level).2 x = h x) ∧
        (setLevel h e level).2 e = { h e with level_ := level })) := by
  refine ⟨setters_initialized h e name loop level, ?_⟩
  intro hinit
  refine ⟨⟨(setName_apply h e name hinit e).1, ?_, ?_, ?_⟩,
    ⟨(setLoop_apply h e loop hinit e).1, ?_, ?_⟩,
    ⟨(setLevel_apply h e level hinit e).1, ?_, ?_⟩⟩
  · intro x hx
    rw [(setName_apply h e name hinit x).2, if_neg hx]
  · rw [(setName_apply h e name hinit e).2, if_pos rfl]
  · rw [(setName_apply h e name hinit e).2, if_pos rfl]
    simp
  · intro x hx
    rw [(setLoop_apply h e loop hinit x).2, if_neg hx]
  · rw [(setLoop_apply h e loop hinit e).2, if_pos rfl]
  · intro x hx
    rw [(setLevel_apply h e level hinit x).2, if_neg hx]
  · rw [(setLevel_apply h e level hinit e).2, if_pos rfl]

theorem setters_only_before_init_witness :
    ((Heap.initialized 1) 1).is_init_ = true ∧
    (setName (Heap.initialized 1) 1 "n" = (none, Heap.initialized 1) ∧
      setLoop (Heap.initialized 1) 1 4 = (none, Heap.initialized 1) ∧
      setLevel (Heap.initialized 1) 1 (-2) = (none, Heap.initialized 1)) ∧
    ((Heap.initialized 1) 5).is_init_ = false ∧
    (setName (Heap.initialized 1) 5 "n").1 = some 5 ∧
    ((setName (Heap.initialized 1) 5 "n").2 5).name_ = "n" ∧
    ((setName (Heap.initialized 1) 5 "").2 5).name_ = ((Heap.initialized 1) 5).session_ ∧
    ((setLoop (Heap.initialized 1) 5 4).2 5).loop_ = 4 ∧
    ((setLevel (Heap.initialized 1) 5 (-2)).2 5).level_ = -2 :=
  ⟨by decide,
    (setters_only_before_init (Heap.initialized 1) 1 "n" 4 (-2)).1 (by decide),
    by decide,
    ((setters_only_before_init (Heap.initialized 1) 5 "n" 4 (-2)).2 (by decide)).1.1,
    by decide, by decide, by decide, by decide⟩

end GElement

end CGraph
